import Mathlib

/-!
Verification development for the `htp` time-expression parser
(`src/parser.rs`).  The reducer (`parse_time_clue`, `parse_time_hms`,
the enumerated-name conversions) is embedded directly from the Rust
source; the pest grammar (`time.pest`, not present in the sources) is
modelled from the specification, section 4.1.
-/

namespace Htp

/-- The grammar production names (the pest `Rule` enum generated from
`time.pest`), as consumed by `parse_time_clue` in `src/parser.rs`. -/
inductive Rule
  | time_clue
  | now
  | time
  | hms
  | relative
  | int
  | quantifier
  | day_at
  | mday
  | modifier
  | weekday
  | shortcut_day
  | iso
  | year
  | month
  | day
  | EOI
deriving DecidableEq, Repr

/-- A flattened pest pair: (production rule, matched substring). -/
abbrev RS := Rule × String

/-- The error kinds of Rust `std::num::ParseIntError`.  The Rust error
value carries only this kind, no offending text. -/
inductive IntErrorKind
  | Empty
  | InvalidDigit
  | PosOverflow
  | NegOverflow
deriving DecidableEq, Repr

/-- `chrono::Weekday`. -/
inductive Weekday
  | Mon | Tue | Wed | Thu | Fri | Sat | Sun
deriving DecidableEq, Repr

/-- `ShortcutDay` from `src/parser.rs`. -/
inductive ShortcutDay
  | Today
  | Yesterday
deriving DecidableEq, Repr

/-- `Modifier` from `src/parser.rs`. -/
inductive Modifier
  | Last
  | Next
deriving DecidableEq, Repr

/-- `Quantifier` from `src/parser.rs`. -/
inductive Quantifier
  | Min
  | Days
deriving DecidableEq, Repr

/-- `YMD = (i32, u32, u32)`. -/
abbrev YMD := Int × Nat × Nat

/-- `HMS = (u32, u32, u32)`. -/
abbrev HMS := Nat × Nat × Nat

/-- `ParseError` from `src/parser.rs`.  `ParseInt` wraps the Rust
`ParseIntError` (which holds only an error kind); `PestError` stands for
the grammar-layer syntax error (its position/expected payload is elided
in this model). -/
inductive ParseError
  | ParseInt (kind : IntErrorKind)
  | PestError
  | UnexpectedNonMatchingPattern
  | UnknownWeekday (s : String)
  | UnknownShortcutDay (s : String)
  | UnknownModifier (s : String)
  | UnknownQuantifier (s : String)
deriving DecidableEq, Repr

/-- `TimeClue` from `src/parser.rs`: the descriptor union. -/
inductive TimeClue
  | Now
  | Time (hms : HMS)
  | Relative (n : Nat) (q : Quantifier)
  | RelativeDayAt (m : Modifier) (w : Weekday) (t : Option HMS)
  | SameWeekDayAt (w : Weekday) (t : Option HMS)
  | ShortcutDayAt (d : ShortcutDay) (t : Option HMS)
  | ISO (ymd : YMD) (hms : HMS)
deriving DecidableEq, Repr

/-! ## Integer parsing (Rust `str::parse` for `u32` / `usize` / `i32`) -/

/-- Numeric value of a digit string (most significant digit first). -/
def digitsVal (cs : List Char) : Nat :=
  cs.foldl (fun acc c => acc * 10 + (c.toNat - 48)) 0

/-- Digit-sequence conversion with an upper bound, as performed by Rust
`from_str_radix` after sign handling: empty → invalid digit, any
non-digit → invalid digit, value above the bound → positive overflow. -/
def parseDigitsUpTo (cs : List Char) (maxVal : Nat) : Except IntErrorKind Nat :=
  if cs = [] then .error .InvalidDigit
  else if cs.all Char.isDigit then
    if digitsVal cs ≤ maxVal then .ok (digitsVal cs) else .error .PosOverflow
  else .error .InvalidDigit

/-- Rust unsigned integer `from_str`: optional leading `+`, then digits,
bounded by the type's maximum. -/
def parseUnsigned (maxVal : Nat) (s : String) : Except IntErrorKind Nat :=
  match s.toList with
  | [] => .error .Empty
  | ['+'] => .error .InvalidDigit
  | '+' :: rest => parseDigitsUpTo rest maxVal
  | cs => parseDigitsUpTo cs maxVal

/-- `u32::MAX`. -/
def u32Max : Nat := 4294967295

/-- `usize::MAX` on a 64-bit target. -/
def usizeMax : Nat := 18446744073709551615

/-- `s.parse::<u32>()`. -/
def parseU32 (s : String) : Except IntErrorKind Nat := parseUnsigned u32Max s

/-- `s.parse::<usize>()`. -/
def parseUsize (s : String) : Except IntErrorKind Nat := parseUnsigned usizeMax s

/-- `s.parse::<i32>()`: optional sign, digits, `i32` range. -/
def parseI32 (s : String) : Except IntErrorKind Int :=
  match s.toList with
  | [] => .error .Empty
  | ['+'] => .error .InvalidDigit
  | ['-'] => .error .InvalidDigit
  | '+' :: rest =>
    (match parseDigitsUpTo rest 2147483647 with
     | .ok n => .ok (Int.ofNat n)
     | .error e => .error e)
  | '-' :: rest =>
    (match parseDigitsUpTo rest 2147483648 with
     | .ok n => .ok (-(Int.ofNat n))
     | .error e => .error (if e = .PosOverflow then .NegOverflow else e))
  | cs =>
    (match parseDigitsUpTo cs 2147483647 with
     | .ok n => .ok (Int.ofNat n)
     | .error e => .error e)

/-! ## Enumerated-name conversions (`src/parser.rs` lines 31-84) -/

/-- `weekday_from`: a Rust `match` on the string, written as the
equivalent equality chain. -/
def weekday_from (s : String) : Except ParseError Weekday :=
  if s = "monday" then .ok .Mon
  else if s = "tuesday" then .ok .Tue
  else if s = "wednesday" then .ok .Wed
  else if s = "thursday" then .ok .Thu
  else if s = "friday" then .ok .Fri
  else if s = "saturday" then .ok .Sat
  else if s = "sunday" then .ok .Sun
  else .error (.UnknownWeekday s)

/-- `shortcut_day_from`. -/
def shortcut_day_from (s : String) : Except ParseError ShortcutDay :=
  if s = "today" then .ok .Today
  else if s = "yesterday" then .ok .Yesterday
  else .error (.UnknownShortcutDay s)

/-- `modifier_from`. -/
def modifier_from (s : String) : Except ParseError Modifier :=
  if s = "last" then .ok .Last
  else if s = "next" then .ok .Next
  else .error (.UnknownModifier s)

/-- `quantifier_from`. -/
def quantifier_from (s : String) : Except ParseError Quantifier :=
  if s = "min" then .ok .Min
  else if s = "days" then .ok .Days
  else .error (.UnknownQuantifier s)

/-! ## The reducer (`src/parser.rs` lines 97-192) -/

/-- `parse_time_hms` (`src/parser.rs` lines 97-116): one to three `hms`
digit fields; omitted trailing fields become 0. -/
def parse_time_hms (l : List RS) : Except ParseError TimeClue :=
  match l with
  | [(Rule.hms, h)] =>
    (match parseU32 h with
     | .error e => .error (.ParseInt e)
     | .ok hh => .ok (.Time (hh, 0, 0)))
  | [(Rule.hms, h), (Rule.hms, m)] =>
    (match parseU32 h with
     | .error e => .error (.ParseInt e)
     | .ok hh =>
       match parseU32 m with
       | .error e => .error (.ParseInt e)
       | .ok mm => .ok (.Time (hh, mm, 0)))
  | [(Rule.hms, h), (Rule.hms, m), (Rule.hms, s)] =>
    (match parseU32 h with
     | .error e => .error (.ParseInt e)
     | .ok hh =>
       match parseU32 m with
       | .error e => .error (.ParseInt e)
       | .ok mm =>
         match parseU32 s with
         | .error e => .error (.ParseInt e)
         | .ok ss => .ok (.Time (hh, mm, ss)))
  | _ => .error .UnexpectedNonMatchingPattern

/-- The `mday` sub-match of `parse_time_clue` (`src/parser.rs` lines
135-171), extracted as a function; the arms are in source order and the
error order within an arm (time first, then modifier, then weekday)
follows the `?` operators in the source. -/
def parse_mday (mday : List RS) : Except ParseError TimeClue :=
  match mday with
  | (Rule.modifier, m) :: (Rule.weekday, w) :: (Rule.time, _) :: time_hms =>
    (match parse_time_hms time_hms with
     | .error e => .error e
     | .ok t =>
       let time_maybe := match t with
         | .Time hms => some hms
         | _ => none
       match modifier_from m with
       | .error e => .error e
       | .ok mm =>
         match weekday_from w with
         | .error e => .error e
         | .ok ww => .ok (.RelativeDayAt mm ww time_maybe))
  | [(Rule.modifier, m), (Rule.weekday, w)] =>
    (match modifier_from m with
     | .error e => .error e
     | .ok mm =>
       match weekday_from w with
       | .error e => .error e
       | .ok ww => .ok (.RelativeDayAt mm ww none))
  | (Rule.weekday, w) :: (Rule.time, _) :: time_hms =>
    (match parse_time_hms time_hms with
     | .error e => .error e
     | .ok t =>
       let time_maybe := match t with
         | .Time hms => some hms
         | _ => none
       match weekday_from w with
       | .error e => .error e
       | .ok ww => .ok (.SameWeekDayAt ww time_maybe))
  | (Rule.shortcut_day, r) :: (Rule.time, _) :: time_hms =>
    (match parse_time_hms time_hms with
     | .error e => .error e
     | .ok t =>
       let time_maybe := match t with
         | .Time hms => some hms
         | _ => none
       match shortcut_day_from r with
       | .error e => .error e
       | .ok rr => .ok (.ShortcutDayAt rr time_maybe))
  | [(Rule.shortcut_day, r)] =>
    (match shortcut_day_from r with
     | .error e => .error e
     | .ok rr => .ok (.ShortcutDayAt rr none))
  | _ => .error .UnexpectedNonMatchingPattern

/-- The `iso` arm body of `parse_time_clue` (`src/parser.rs` lines
173-183), extracted as a function. -/
def parse_iso (y m d : String) (time_hms : List RS) : Except ParseError TimeClue :=
  match parse_time_hms time_hms with
  | .error e => .error e
  | .ok t =>
    match t with
    | .Time hms =>
      (match parseI32 y with
       | .error e => .error (.ParseInt e)
       | .ok yy =>
         match parseU32 m with
         | .error e => .error (.ParseInt e)
         | .ok mm =>
           match parseU32 d with
           | .error e => .error (.ParseInt e)
           | .ok dd => .ok (.ISO (yy, mm, dd) hms))
    | _ => .error .UnexpectedNonMatchingPattern

/-- Splits off the last element of a list (for the Rust slice patterns
`[a, b, mid @ .., last]`). -/
def splitLast : List α → Option (List α × α)
  | [] => none
  | [a] => some ([], a)
  | a :: b :: rest =>
    match splitLast (b :: rest) with
    | some (init, last) => some (a :: init, last)
    | none => none

/-- `parse_time_clue` (`src/parser.rs` lines 118-186): structural match
on the flattened (rule, substring) sequence.  Slice patterns of the form
`[.., mid @ .., (Rule::EOI, _)]` are rendered with `splitLast`; the arms
are discriminated by the second pair's rule exactly as in the source,
and any non-matching shape falls to `UnexpectedNonMatchingPattern`. -/
def parse_time_clue (l : List RS) : Except ParseError TimeClue :=
  match l with
  | [(Rule.time_clue, _), (Rule.now, _), (Rule.EOI, _)] => .ok .Now
  | (Rule.time_clue, _) :: (Rule.time, _) :: rest =>
    (match splitLast rest with
     | some (mid, (Rule.EOI, _)) => parse_time_hms mid
     | _ => .error .UnexpectedNonMatchingPattern)
  | [(Rule.time_clue, _), (Rule.relative, _), (Rule.int, s), (Rule.quantifier, q), (Rule.EOI, _)] =>
    (match parseUsize s with
     | .error e => .error (.ParseInt e)
     | .ok n =>
       match quantifier_from q with
       | .error e => .error e
       | .ok qq => .ok (.Relative n qq))
  | (Rule.time_clue, _) :: (Rule.day_at, _) :: (Rule.mday, _) :: rest =>
    (match splitLast rest with
     | some (mid, (Rule.EOI, _)) => parse_mday mid
     | _ => .error .UnexpectedNonMatchingPattern)
  | (Rule.time_clue, _) :: (Rule.iso, _) :: (Rule.year, y) :: (Rule.month, m) :: (Rule.day, d) :: (Rule.time, _) :: rest =>
    (match splitLast rest with
     | some (mid, (Rule.EOI, _)) => parse_iso y m d mid
     | _ => .error .UnexpectedNonMatchingPattern)
  | _ => .error .UnexpectedNonMatchingPattern

/-! ## The grammar layer

The pest grammar file `time.pest` is not among the sources; only its
declaration (`#[grammar = "time.pest"]`) and its consumer are.  The
matcher below is therefore modelled from the specification, section 4.1,
and produces the flattened pre-order (rule, substring) sequence that
`pest::iterators::Pairs::flatten` hands to `parse_time_clue`. -/

/-- Fixed weekday vocabulary (spec section 3: "the seven day names"). -/
def weekdayNames : List String :=
  ["monday", "tuesday", "wednesday", "thursday", "friday", "saturday", "sunday"]

/-- Fixed shortcut-day vocabulary (spec section 3). -/
def shortcutDayNames : List String := ["today", "yesterday"]

/-- Fixed modifier vocabulary (spec section 3). -/
def modifierNames : List String := ["last", "next"]

/-- Surface quantifier vocabulary.  The spec names the units
"{minutes, days}" but its own examples ("2 min ago" and the reducer's
conversion table) fix the surface tokens as `min` and `days`. -/
def quantifierNames : List String := ["min", "days"]

/-- Drops the run of insignificant whitespace (spaces) at the head. -/
def wsSkip (cs : List Char) : List Char :=
  cs.dropWhile (fun c => c == ' ')

/-- Matches a literal token; returns the remaining input on success. -/
def matchLit : List Char → List Char → Option (List Char)
  | [], cs => some cs
  | _ :: _, [] => none
  | l :: ls, c :: cs => if c = l then matchLit ls cs else none

/-- Matches a nonempty digit run; returns the digits and the rest. -/
def matchDigits (cs : List Char) : Option (List Char × List Char) :=
  let ds := cs.takeWhile Char.isDigit
  if ds = [] then none else some (ds, cs.dropWhile Char.isDigit)

/-- Matches the first vocabulary name that is a prefix of the input. -/
def matchName (names : List String) (cs : List Char) : Option (String × List Char) :=
  match names with
  | [] => none
  | n :: rest =>
    match matchLit n.toList cs with
    | some r => some (n, r)
    | none => matchName rest cs

/-- Modelled from the spec: the `now` production ("literal now"). -/
def matchNow (cs : List Char) : Option (List RS × List Char) :=
  match matchLit "now".toList cs with
  | some r => some ([(Rule.now, "now")], r)
  | none => none

/-- A colon followed by a further `hms` digit field, whitespace
insignificant around the separator. -/
def matchColonHms (cs : List Char) : Option (List Char × List Char) :=
  match matchLit [':'] (wsSkip cs) with
  | some r1 => matchDigits (wsSkip r1)
  | none => none

/-- Modelled from the spec: the `time` production — one, two, or three
`hms` numeric fields separated by a colon (hour[:minute[:second]]). -/
def matchTime (cs : List Char) : Option (List RS × List Char) :=
  match matchDigits cs with
  | none => none
  | some (h, r1) =>
    match matchColonHms r1 with
    | none => some ([(Rule.time, ""), (Rule.hms, h.asString)], r1)
    | some (m, r2) =>
      match matchColonHms r2 with
      | none => some ([(Rule.time, ""), (Rule.hms, h.asString), (Rule.hms, m.asString)], r2)
      | some (s, r3) =>
        some ([(Rule.time, ""), (Rule.hms, h.asString), (Rule.hms, m.asString), (Rule.hms, s.asString)], r3)

/-- Modelled from the spec: the `relative` production — an integer
count, a `quantifier` token, and a trailing "ago" marker, in that
order, with optional/variable whitespace between all three. -/
def matchRelative (cs : List Char) : Option (List RS × List Char) :=
  match matchDigits cs with
  | none => none
  | some (n, r1) =>
    match matchName quantifierNames (wsSkip r1) with
    | none => none
    | some (q, r2) =>
      match matchLit "ago".toList (wsSkip r2) with
      | none => none
      | some r3 => some ([(Rule.relative, ""), (Rule.int, n.asString), (Rule.quantifier, q)], r3)

/-- The optional trailing `"at" ~ time` sub-phrase of `mday`; when it
does not match, the day reference stands alone. -/
def matchOptAtTime (base : List RS) (cs : List Char) : Option (List RS × List Char) :=
  match matchLit "at".toList (wsSkip cs) with
  | some r1 =>
    (match matchTime (wsSkip r1) with
     | some (tps, r2) => some (base ++ tps, r2)
     | none => some (base, cs))
  | none => some (base, cs)

/-- Modelled from the spec: the `mday` production — one of
`modifier weekday [at time]`, bare `weekday [at time]`,
`shortcut_day [at time]`, tried in that order. -/
def matchMday (cs : List Char) : Option (List RS × List Char) :=
  match matchName modifierNames cs with
  | some (m, r1) =>
    (match matchName weekdayNames (wsSkip r1) with
     | some (w, r2) => matchOptAtTime [(Rule.mday, ""), (Rule.modifier, m), (Rule.weekday, w)] r2
     | none => none)
  | none =>
    match matchName weekdayNames cs with
    | some (w, r1) => matchOptAtTime [(Rule.mday, ""), (Rule.weekday, w)] r1
    | none =>
      match matchName shortcutDayNames cs with
      | some (d, r1) => matchOptAtTime [(Rule.mday, ""), (Rule.shortcut_day, d)] r1
      | none => none

/-- Modelled from the spec: the `day_at` production, wrapping `mday`. -/
def matchDayAt (cs : List Char) : Option (List RS × List Char) :=
  match matchMday cs with
  | some (ps, r) => some ((Rule.day_at, "") :: ps, r)
  | none => none

/-- A `year` literal: optional sign then digits (spec section 4.2:
"sign permitted, consistent with a generic integer literal"). -/
def matchSignedDigits (cs : List Char) : Option (List Char × List Char) :=
  match cs with
  | '-' :: rest =>
    (match matchDigits rest with
     | some (ds, r) => some ('-' :: ds, r)
     | none => none)
  | '+' :: rest =>
    (match matchDigits rest with
     | some (ds, r) => some ('+' :: ds, r)
     | none => none)
  | _ => matchDigits cs

/-- Modelled from the spec: the `iso` production —
`year "-" month "-" day "at" time`. -/
def matchIso (cs : List Char) : Option (List RS × List Char) :=
  match matchSignedDigits cs with
  | none => none
  | some (y, r1) =>
    match matchLit ['-'] (wsSkip r1) with
    | none => none
    | some r2 =>
      match matchDigits (wsSkip r2) with
      | none => none
      | some (m, r3) =>
        match matchLit ['-'] (wsSkip r3) with
        | none => none
        | some r4 =>
          match matchDigits (wsSkip r4) with
          | none => none
          | some (d, r5) =>
            match matchLit "at".toList (wsSkip r5) with
            | none => none
            | some r6 =>
              match matchTime (wsSkip r6) with
              | none => none
              | some (tps, r7) =>
                some ([(Rule.iso, ""), (Rule.year, y.asString), (Rule.month, m.asString),
                       (Rule.day, d.asString)] ++ tps, r7)

/-- Closes one top-level alternative: the remaining input, up to
trailing whitespace, must be exhausted (end-of-input), and the pair
sequence is wrapped in `time_clue` and terminated by `EOI`. -/
def tryAlt (res : Option (List RS × List Char)) : Option (List RS) :=
  match res with
  | some (ps, r) =>
    if wsSkip r = [] then some ((Rule.time_clue, "") :: ps ++ [(Rule.EOI, "")]) else none
  | none => none

/-- Modelled from the spec: the `time_clue` top production — exactly one
of `now`, `time`, `relative`, `day_at`, `iso`, followed by end-of-input;
alternatives are tried in order with backtracking to the next
alternative when the end-of-input requirement fails. -/
def matchTimeClue (cs : List Char) : Option (List RS) :=
  match tryAlt (matchNow cs) with
  | some ps => some ps
  | none =>
    match tryAlt (matchTime cs) with
    | some ps => some ps
    | none =>
      match tryAlt (matchRelative cs) with
      | some ps => some ps
      | none =>
        match tryAlt (matchDayAt cs) with
        | some ps => some ps
        | none => tryAlt (matchIso cs)

/-- `parse_time_clue_from_str` on the character list: grammar match,
then the reducer; a grammar failure surfaces as the pest error. -/
def parseChars (cs : List Char) : Except ParseError TimeClue :=
  match matchTimeClue cs with
  | none => .error .PestError
  | some pairs => parse_time_clue pairs

/-- `parse_time_clue_from_str` (`src/parser.rs` lines 188-192). -/
def parse_time_clue_from_str (s : String) : Except ParseError TimeClue :=
  parseChars s.toList

/-! ## Helper definitions and lemmas -/

instance {ε α : Type} [DecidableEq ε] [DecidableEq α] : DecidableEq (Except ε α)
  | .ok a, .ok b => if h : a = b then .isTrue (by rw [h]) else .isFalse (by simp [h])
  | .ok _, .error _ => .isFalse (by simp)
  | .error _, .ok _ => .isFalse (by simp)
  | .error a, .error b => if h : a = b then .isTrue (by rw [h]) else .isFalse (by simp [h])

/-- Recognizes the `Time` descriptor variant. -/
def isTimeVariant : TimeClue → Bool
  | .Time _ => true
  | _ => false

/-- Recognizes the three day-reference descriptor variants. -/
def isMdayVariant : TimeClue → Bool
  | .RelativeDayAt _ _ _ => true
  | .SameWeekDayAt _ _ => true
  | .ShortcutDayAt _ _ => true
  | _ => false

/-- Recognizes the `ISO` descriptor variant. -/
def isIsoVariant : TimeClue → Bool
  | .ISO _ _ => true
  | _ => false

/-- True exactly when a descriptor has an optional clock-time slot that
was left unset. -/
def hasUnsetTime : TimeClue → Bool
  | .RelativeDayAt _ _ none => true
  | .SameWeekDayAt _ none => true
  | .ShortcutDayAt _ none => true
  | _ => false

theorem parse_time_hms_ok_time {l : List RS} {t : TimeClue}
    (h : parse_time_hms l = .ok t) : isTimeVariant t = true := by
  unfold parse_time_hms at h
  split at h <;>
    repeat (first | (split at h) | (injection h; subst_vars; rfl) | (exact absurd h (by simp)))

theorem parse_mday_ok_mday {l : List RS} {t : TimeClue}
    (h : parse_mday l = .ok t) : isMdayVariant t = true := by
  unfold parse_mday at h
  split at h <;>
    repeat (first | (split at h) | (injection h; subst_vars; rfl) | (exact absurd h (by simp)))

theorem parse_iso_ok_iso {y m d : String} {l : List RS} {t : TimeClue}
    (h : parse_iso y m d l = .ok t) : isIsoVariant t = true := by
  unfold parse_iso at h
  split at h <;>
    repeat (first | (split at h) | (injection h; subst_vars; rfl) | (exact absurd h (by simp)))

theorem splitLast_eq_append {l init : List α} {a : α}
    (h : splitLast l = some (init, a)) : l = init ++ [a] := by
  induction l generalizing init with
  | nil => simp [splitLast] at h
  | cons x xs ih =>
    cases xs with
    | nil =>
      simp [splitLast] at h
      simp [h.1, h.2]
    | cons y ys =>
      rw [splitLast] at h
      cases hs : splitLast (y :: ys) with
      | none => rw [hs] at h; simp at h
      | some p =>
        obtain ⟨init', a'⟩ := p
        rw [hs] at h
        simp at h
        obtain ⟨rfl, rfl⟩ := h
        have := ih hs
        simp [this]

theorem matchLit_eq_append {lit cs r : List Char}
    (h : matchLit lit cs = some r) : cs = lit ++ r := by
  induction lit generalizing cs with
  | nil => simp [matchLit] at h; simp [h]
  | cons l ls ih =>
    match cs with
    | [] => simp [matchLit] at h
    | c :: cs' =>
      rw [matchLit] at h
      split at h
      · next heq => simp [heq, ih h]
      · simp at h

/-- The reducer yields `Now` only from the `[time_clue, now, EOI]`
shape. -/
theorem parse_time_clue_ok_now {l : List RS} (h : parse_time_clue l = .ok .Now) :
    l.map Prod.fst = [Rule.time_clue, Rule.now, Rule.EOI] := by
  unfold parse_time_clue at h
  split at h
  · simp
  · split at h
    · exact absurd (parse_time_hms_ok_time h) (by simp [isTimeVariant])
    · simp at h
  · split at h
    · simp at h
    · split at h <;> simp at h
  · split at h
    · exact absurd (parse_mday_ok_mday h) (by simp [isMdayVariant])
    · simp at h
  · split at h
    · exact absurd (parse_iso_ok_iso h) (by simp [isIsoVariant])
    · simp at h
  · simp at h

/-- The reducer yields `ISO` only from the sequence whose first six
rules are `time_clue, iso, year, month, day, time`: an `ISO` descriptor
always comes from a shape that carries a time sub-phrase. -/
theorem parse_time_clue_ok_iso {l : List RS} {ymd : YMD} {hms : HMS}
    (h : parse_time_clue l = .ok (.ISO ymd hms)) :
    (l.map Prod.fst).take 6 =
      [Rule.time_clue, Rule.iso, Rule.year, Rule.month, Rule.day, Rule.time] := by
  unfold parse_time_clue at h
  split at h
  · simp at h
  · split at h
    · exact absurd (parse_time_hms_ok_time h) (by simp [isTimeVariant])
    · simp at h
  · split at h
    · simp at h
    · split at h <;> simp at h
  · split at h
    · exact absurd (parse_mday_ok_mday h) (by simp [isMdayVariant])
    · simp at h
  · simp
  · simp at h

/-- In the `mday` sub-reducer, a shape that contains a matched `time`
sub-phrase never yields a descriptor with an unset optional time. -/
theorem parse_mday_time_set {l : List RS} {r : TimeClue}
    (hok : parse_mday l = .ok r) (ht : Rule.time ∈ l.map Prod.fst) :
    hasUnsetTime r = false := by
  unfold parse_mday at hok
  split at hok
  · cases hph : parse_time_hms _ with
    | error e => rw [hph] at hok; simp at hok
    | ok t =>
      rw [hph] at hok
      have htv := parse_time_hms_ok_time hph
      cases t <;> simp [isTimeVariant] at htv
      simp only at hok
      cases hm : modifier_from _ with
      | error e => rw [hm] at hok; simp at hok
      | ok mm =>
        rw [hm] at hok
        cases hw : weekday_from _ with
        | error e => rw [hw] at hok; simp at hok
        | ok ww =>
          rw [hw] at hok
          simp at hok
          rw [← hok]
          rfl
  · simp at ht
  · cases hph : parse_time_hms _ with
    | error e => rw [hph] at hok; simp at hok
    | ok t =>
      rw [hph] at hok
      have htv := parse_time_hms_ok_time hph
      cases t <;> simp [isTimeVariant] at htv
      simp only at hok
      cases hw : weekday_from _ with
      | error e => rw [hw] at hok; simp at hok
      | ok ww =>
        rw [hw] at hok
        simp at hok
        rw [← hok]
        rfl
  · cases hph : parse_time_hms _ with
    | error e => rw [hph] at hok; simp at hok
    | ok t =>
      rw [hph] at hok
      have htv := parse_time_hms_ok_time hph
      cases t <;> simp [isTimeVariant] at htv
      simp only at hok
      cases hs : shortcut_day_from _ with
      | error e => rw [hs] at hok; simp at hok
      | ok rr =>
        rw [hs] at hok
        simp at hok
        rw [← hok]
        rfl
  · simp at ht
  · simp at hok

/-! ## Whitespace and matcher lemmas -/

theorem wsSkip_space_cons (l : List Char) : wsSkip (' ' :: l) = wsSkip l := by
  simp [wsSkip, List.dropWhile_cons]

theorem wsSkip_replicate_append (n : Nat) (l : List Char) :
    wsSkip (List.replicate n ' ' ++ l) = wsSkip l := by
  induction n with
  | zero => rfl
  | succ m ih => rw [List.replicate_succ, List.cons_append, wsSkip_space_cons, ih]

theorem wsSkip_cons_of_ne {c : Char} (h : ¬ c = ' ') (l : List Char) :
    wsSkip (c :: l) = c :: l := by
  simp [wsSkip, List.dropWhile_cons, h]

theorem wsSkip_replicate (n : Nat) : wsSkip (List.replicate n ' ') = [] := by
  rw [← List.append_nil (List.replicate n ' '), wsSkip_replicate_append]
  rfl

theorem takeWhile_replicate_space (p : Char → Bool) (hsp : p ' ' = false)
    (c : Char) (hc : p c = false) (n : Nat) (l : List Char) :
    (List.replicate n ' ' ++ c :: l).takeWhile p = [] := by
  cases n with
  | zero => simp [List.takeWhile_cons, hc]
  | succ m => simp [List.replicate, List.takeWhile_cons, hsp]

theorem dropWhile_replicate_space (p : Char → Bool) (hsp : p ' ' = false)
    (c : Char) (hc : p c = false) (n : Nat) (l : List Char) :
    (List.replicate n ' ' ++ c :: l).dropWhile p = List.replicate n ' ' ++ c :: l := by
  cases n with
  | zero => simp [List.dropWhile_cons, hc]
  | succ m => simp [List.replicate, List.dropWhile_cons, hsp]

/-- The phrase "2 min ago" with arbitrary runs of spaces between the
tokens and after the phrase: `i`, `j`, `k` spaces respectively. -/
def relWs (i j k : Nat) : List Char :=
  '2' :: (List.replicate i ' ' ++ ('m' :: 'i' :: 'n' ::
    (List.replicate j ' ' ++ ('a' :: 'g' :: 'o' :: List.replicate k ' '))))

theorem matchDigits_relWs (i j k : Nat) :
    matchDigits (relWs i j k) =
      some (['2'], List.replicate i ' ' ++ ('m' :: 'i' :: 'n' ::
        (List.replicate j ' ' ++ ('a' :: 'g' :: 'o' :: List.replicate k ' ')))) := by
  unfold matchDigits relWs
  rw [List.takeWhile_cons, List.dropWhile_cons,
      takeWhile_replicate_space Char.isDigit (by decide) 'm' (by decide),
      dropWhile_replicate_space Char.isDigit (by decide) 'm' (by decide)]
  simp

theorem matchColonHms_ws_none (c : Char) (hc : ¬ c = ':') (hsp : ¬ c = ' ')
    (n : Nat) (l : List Char) :
    matchColonHms (List.replicate n ' ' ++ c :: l) = none := by
  unfold matchColonHms
  rw [wsSkip_replicate_append, wsSkip_cons_of_ne hsp]
  simp [matchLit, hc]

theorem match_relative_relWs (i j k : Nat) :
    matchRelative (relWs i j k) =
      some ([(Rule.relative, ""), (Rule.int, "2"), (Rule.quantifier, "min")],
            List.replicate k ' ') := by
  unfold matchRelative
  rw [matchDigits_relWs]
  simp only []
  rw [wsSkip_replicate_append, wsSkip_cons_of_ne (by decide)]
  simp only [matchName, quantifierNames]
  rw [show ("min".toList) = ['m', 'i', 'n'] from rfl]
  simp only [matchLit]
  norm_num
  rw [wsSkip_replicate_append, wsSkip_cons_of_ne (by decide)]
  simp [matchLit]
  rfl

theorem matchTimeClue_relWs (i j k : Nat) :
    matchTimeClue (relWs i j k) =
      some [(Rule.time_clue, ""), (Rule.relative, ""), (Rule.int, "2"),
            (Rule.quantifier, "min"), (Rule.EOI, "")] := by
  have h1 : matchNow (relWs i j k) = none := by
    unfold matchNow relWs
    rw [show ("now".toList) = ['n', 'o', 'w'] from rfl]
    simp [matchLit]
  have h2 : tryAlt (matchTime (relWs i j k)) = none := by
    unfold matchTime
    rw [matchDigits_relWs]
    simp only []
    rw [matchColonHms_ws_none 'm' (by decide) (by decide)]
    unfold tryAlt
    simp only []
    rw [wsSkip_replicate_append, wsSkip_cons_of_ne (by decide)]
    simp
  unfold matchTimeClue
  rw [h1, h2]
  simp only [tryAlt]
  rw [match_relative_relWs]
  simp only [tryAlt, wsSkip_replicate]
  simp

/-- The spaced-out relative phrase parses to `Relative(2, Min)` for
every choice of whitespace-run lengths. -/
theorem parseChars_relWs (i j k : Nat) :
    parseChars (relWs i j k) = .ok (.Relative 2 .Min) := by
  unfold parseChars
  rw [matchTimeClue_relWs]
  rfl

theorem tryAlt_some {res : Option (List RS × List Char)} {ps : List RS}
    (h : tryAlt res = some ps) :
    ∃ qs r, res = some (qs, r) ∧ wsSkip r = [] ∧
      ps = (Rule.time_clue, "") :: qs ++ [(Rule.EOI, "")] := by
  cases res with
  | none => simp [tryAlt] at h
  | some p =>
    obtain ⟨qs, r⟩ := p
    unfold tryAlt at h
    simp only [] at h
    split at h
    · next hws => exact ⟨qs, r, rfl, hws, (Option.some.inj h).symm⟩
    · simp at h

theorem matchTime_shape {cs : List Char} {ps : List RS} {r : List Char}
    (h : matchTime cs = some (ps, r)) : ∃ tl, ps = (Rule.time, "") :: tl := by
  unfold matchTime at h
  split at h
  · simp at h
  · split at h
    · simp at h; exact ⟨_, h.1.symm⟩
    · split at h
      · simp at h; exact ⟨_, h.1.symm⟩
      · simp at h; exact ⟨_, h.1.symm⟩

theorem matchRelative_shape {cs : List Char} {ps : List RS} {r : List Char}
    (h : matchRelative cs = some (ps, r)) : ∃ tl, ps = (Rule.relative, "") :: tl := by
  unfold matchRelative at h
  split at h
  · simp at h
  · split at h
    · simp at h
    · split at h
      · simp at h
      · simp at h; exact ⟨_, h.1.symm⟩

theorem matchDayAt_shape {cs : List Char} {ps : List RS} {r : List Char}
    (h : matchDayAt cs = some (ps, r)) : ∃ tl, ps = (Rule.day_at, "") :: tl := by
  unfold matchDayAt at h
  split at h
  · simp at h; exact ⟨_, h.1.symm⟩
  · simp at h

theorem matchIso_shape {cs : List Char} {ps : List RS} {r : List Char}
    (h : matchIso cs = some (ps, r)) : ∃ tl, ps = (Rule.iso, "") :: tl := by
  unfold matchIso at h
  repeat (split at h; try simp at h)
  simp at h
  exact ⟨_, h.1.symm⟩

/-- Only the literal "now" (with trailing whitespace) reaches the `Now`
descriptor through the grammar-plus-reducer pipeline. -/
theorem parseChars_ok_now {cs : List Char} (h : parseChars cs = .ok .Now) :
    cs.take 3 = ['n', 'o', 'w'] ∧ wsSkip (cs.drop 3) = [] := by
  unfold parseChars at h
  cases hm : matchTimeClue cs with
  | none => rw [hm] at h; simp at h
  | some pairs =>
    rw [hm] at h
    have hshape := parse_time_clue_ok_now h
    unfold matchTimeClue at hm
    cases h1 : tryAlt (matchNow cs) with
    | some ps1 =>
      rw [h1] at hm
      simp at hm
      subst hm
      obtain ⟨qs, r, hres, hws, hps⟩ := tryAlt_some h1
      unfold matchNow at hres
      cases hlit : matchLit "now".toList cs with
      | none => rw [hlit] at hres; simp at hres
      | some rr =>
        rw [hlit] at hres
        simp at hres
        obtain ⟨hqs, hr⟩ := hres
        have hcs := matchLit_eq_append hlit
        rw [show ("now".toList) = ['n', 'o', 'w'] from rfl] at hcs
        subst hcs
        refine ⟨by simp, ?_⟩
        have : rr = r := hr
        simp [this, hws]
    | none =>
      rw [h1] at hm
      simp only [] at hm
      cases h2 : tryAlt (matchTime cs) with
      | some ps2 =>
        rw [h2] at hm
        simp at hm
        subst hm
        obtain ⟨qs, r, hres, hws, hps⟩ := tryAlt_some h2
        obtain ⟨tl, htl⟩ := matchTime_shape hres
        subst htl
        subst hps
        simp at hshape
      | none =>
        rw [h2] at hm
        simp only [] at hm
        cases h3 : tryAlt (matchRelative cs) with
        | some ps3 =>
          rw [h3] at hm
          simp at hm
          subst hm
          obtain ⟨qs, r, hres, hws, hps⟩ := tryAlt_some h3
          obtain ⟨tl, htl⟩ := matchRelative_shape hres
          subst htl
          subst hps
          simp at hshape
        | none =>
          rw [h3] at hm
          simp only [] at hm
          cases h4 : tryAlt (matchDayAt cs) with
          | some ps4 =>
            rw [h4] at hm
            simp at hm
            subst hm
            obtain ⟨qs, r, hres, hws, hps⟩ := tryAlt_some h4
            obtain ⟨tl, htl⟩ := matchDayAt_shape hres
            subst htl
            subst hps
            simp at hshape
          | none =>
            rw [h4] at hm
            simp only [] at hm
            obtain ⟨qs, r, hres, hws, hps⟩ := tryAlt_some hm
            obtain ⟨tl, htl⟩ := matchIso_shape hres
            subst htl
            subst hps
            simp at hshape

theorem splitLast_append_single (l : List α) (a : α) :
    splitLast (l ++ [a]) = some (l, a) := by
  induction l with
  | nil => rfl
  | cons x xs ih =>
    cases xs with
    | nil => rfl
    | cons y ys =>
      show splitLast (x :: ((y :: ys) ++ [a])) = _
      rw [splitLast.eq_def]
      simp only [List.cons_append]
      rw [List.cons_append] at ih
      rw [ih]

/-- Field fidelity of the `iso` arm body: the six numeric fields of the
result are exactly the conversions of the written substrings. -/
theorem parse_iso_fields (y m d : String) (l : List RS) (yy : Int) (mm dd : Nat)
    (hms : HMS) (hy : parseI32 y = .ok yy) (hm : parseU32 m = .ok mm)
    (hd : parseU32 d = .ok dd) (ht : parse_time_hms l = .ok (.Time hms)) :
    parse_iso y m d l = .ok (.ISO (yy, mm, dd) hms) := by
  unfold parse_iso
  rw [ht, hy, hm, hd]

/-- Field fidelity at the reducer level: for every ISO-shaped sequence
whose field substrings convert, the result is `ISO` carrying exactly
those values. -/
theorem parse_time_clue_iso_fields (a b t e y m d : String) (l : List RS) (yy : Int)
    (mm dd : Nat) (hms : HMS) (hy : parseI32 y = .ok yy) (hm : parseU32 m = .ok mm)
    (hd : parseU32 d = .ok dd) (ht : parse_time_hms l = .ok (.Time hms)) :
    parse_time_clue ((Rule.time_clue, a) :: (Rule.iso, b) :: (Rule.year, y) ::
      (Rule.month, m) :: (Rule.day, d) :: (Rule.time, t) :: (l ++ [(Rule.EOI, e)])) =
      .ok (.ISO (yy, mm, dd) hms) := by
  unfold parse_time_clue
  simp only []
  rw [splitLast_append_single]
  simp only []
  exact parse_iso_fields y m d l yy mm dd hms hy hm hd ht

/-! ## Out-of-vocabulary conversion lemmas -/

theorem weekday_from_out {s : String} (h : s ∉ weekdayNames) :
    weekday_from s = .error (.UnknownWeekday s) := by
  simp [weekdayNames] at h
  obtain ⟨h1, h2, h3, h4, h5, h6, h7⟩ := h
  simp [weekday_from, h1, h2, h3, h4, h5, h6, h7]

theorem shortcut_day_from_out {s : String} (h : s ∉ shortcutDayNames) :
    shortcut_day_from s = .error (.UnknownShortcutDay s) := by
  simp [shortcutDayNames] at h
  obtain ⟨h1, h2⟩ := h
  simp [shortcut_day_from, h1, h2]

theorem modifier_from_out {s : String} (h : s ∉ modifierNames) :
    modifier_from s = .error (.UnknownModifier s) := by
  simp [modifierNames] at h
  obtain ⟨h1, h2⟩ := h
  simp [modifier_from, h1, h2]

theorem quantifier_from_out {s : String} (h : s ∉ quantifierNames) :
    quantifier_from s = .error (.UnknownQuantifier s) := by
  simp [quantifierNames] at h
  obtain ⟨h1, h2⟩ := h
  simp [quantifier_from, h1, h2]

/-- Whole-reducer form: a successful reduction of a sequence containing
a matched `time` sub-phrase never leaves an optional time slot unset. -/
theorem parse_time_clue_time_set {l : List RS} {r : TimeClue}
    (hok : parse_time_clue l = .ok r) (ht : Rule.time ∈ l.map Prod.fst) :
    hasUnsetTime r = false := by
  unfold parse_time_clue at hok
  split at hok
  · simp at hok; rw [← hok]; rfl
  · split at hok
    · have := parse_time_hms_ok_time hok
      cases r <;> simp [isTimeVariant] at this
      rfl
    · simp at hok
  · cases hn : parseUsize _ with
    | error e => rw [hn] at hok; simp at hok
    | ok n =>
      rw [hn] at hok
      cases hq : quantifier_from _ with
      | error e => rw [hq] at hok; simp at hok
      | ok qq => rw [hq] at hok; simp at hok; rw [← hok]; rfl
  · next rest heq =>
    split at hok
    · next mid last hsl =>
      have hrest := splitLast_eq_append hsl
      subst hrest
      simp at ht
      exact parse_mday_time_set hok (by simpa using ht)
    · simp at hok
  · split at hok
    · have := parse_iso_ok_iso hok
      cases r <;> simp [isIsoVariant] at this
      rfl
    · simp at hok
  · simp at hok

/-! ## Phrase-level whitespace insensitivity -/


theorem tl_now : "now".toList = ['n', 'o', 'w'] := rfl
theorem tl_at : "at".toList = ['a', 't'] := rfl
theorem tl_ago : "ago".toList = ['a', 'g', 'o'] := rfl
theorem tl_min : "min".toList = ['m', 'i', 'n'] := rfl
theorem tl_days : "days".toList = ['d', 'a', 'y', 's'] := rfl
theorem tl_monday : "monday".toList = ['m', 'o', 'n', 'd', 'a', 'y'] := rfl
theorem tl_tuesday : "tuesday".toList = ['t', 'u', 'e', 's', 'd', 'a', 'y'] := rfl
theorem tl_wednesday : "wednesday".toList = ['w', 'e', 'd', 'n', 'e', 's', 'd', 'a', 'y'] := rfl
theorem tl_thursday : "thursday".toList = ['t', 'h', 'u', 'r', 's', 'd', 'a', 'y'] := rfl
theorem tl_friday : "friday".toList = ['f', 'r', 'i', 'd', 'a', 'y'] := rfl
theorem tl_saturday : "saturday".toList = ['s', 'a', 't', 'u', 'r', 'd', 'a', 'y'] := rfl
theorem tl_sunday : "sunday".toList = ['s', 'u', 'n', 'd', 'a', 'y'] := rfl
theorem tl_today : "today".toList = ['t', 'o', 'd', 'a', 'y'] := rfl
theorem tl_yesterday : "yesterday".toList = ['y', 'e', 's', 't', 'e', 'r', 'd', 'a', 'y'] := rfl
theorem tl_last : "last".toList = ['l', 'a', 's', 't'] := rfl
theorem tl_next : "next".toList = ['n', 'e', 'x', 't'] := rfl

/-- A digit token: nonempty, all decimal digits. -/
def digitsTok (ds : List Char) : Bool :=
  !ds.isEmpty && ds.all Char.isDigit

/-- The head of the list does not satisfy `p` (or the list is empty). -/
def headFails (p : Char → Bool) : List Char → Bool
  | [] => true
  | c :: _ => !p c

theorem takeWhile_eq_nil_of_headFails {p : Char → Bool} {l : List Char}
    (h : headFails p l = true) : l.takeWhile p = [] := by
  cases l with
  | nil => rfl
  | cons c cs =>
    simp [headFails] at h
    simp [List.takeWhile_cons, h]

theorem dropWhile_eq_self_of_headFails {p : Char → Bool} {l : List Char}
    (h : headFails p l = true) : l.dropWhile p = l := by
  cases l with
  | nil => rfl
  | cons c cs =>
    simp [headFails] at h
    simp [List.dropWhile_cons, h]

theorem takeWhile_append_all {p : Char → Bool} {ds : List Char}
    (h : ds.all p = true) (l : List Char) :
    (ds ++ l).takeWhile p = ds ++ l.takeWhile p := by
  induction ds with
  | nil => rfl
  | cons c cs ih =>
    rw [List.all_cons, Bool.and_eq_true] at h
    simp [List.takeWhile_cons, h.1, ih h.2]

theorem dropWhile_append_all {p : Char → Bool} {ds : List Char}
    (h : ds.all p = true) (l : List Char) :
    (ds ++ l).dropWhile p = l.dropWhile p := by
  induction ds with
  | nil => rfl
  | cons c cs ih =>
    rw [List.all_cons, Bool.and_eq_true] at h
    simp [List.dropWhile_cons, h.1, ih h.2]

theorem headFails_replicate_space {p : Char → Bool} (hsp : p ' ' = false)
    {l : List Char} (h : headFails p l = true) (n : Nat) :
    headFails p (List.replicate n ' ' ++ l) = true := by
  cases n with
  | zero => simpa using h
  | succ m => simp [List.replicate, headFails, hsp]

theorem matchDigits_token {ds : List Char} (h : digitsTok ds = true) {rest : List Char}
    (hr : headFails Char.isDigit rest = true) :
    matchDigits (ds ++ rest) = some (ds, rest) := by
  simp only [digitsTok, Bool.and_eq_true] at h
  unfold matchDigits
  rw [takeWhile_append_all h.2, dropWhile_append_all h.2,
      takeWhile_eq_nil_of_headFails hr, dropWhile_eq_self_of_headFails hr]
  cases ds with
  | nil => simp at h
  | cons c cs => simp

theorem matchLit_self_append (l r : List Char) : matchLit l (l ++ r) = some r := by
  induction l with
  | nil => rfl
  | cons c cs ih => simp [matchLit, ih]

theorem isDigit_ne {c d : Char} (hc : c.isDigit = true) (hd : d.isDigit = false) :
    ¬ c = d := by
  intro h
  rw [h, hd] at hc
  cases hc

theorem digitsTok_head {ds : List Char} (h : digitsTok ds = true) :
    ∃ c cs, ds = c :: cs ∧ c.isDigit = true := by
  cases ds with
  | nil => simp [digitsTok] at h
  | cons c cs =>
    simp only [digitsTok, List.all_cons, Bool.and_eq_true] at h
    exact ⟨c, cs, rfl, h.2.1⟩

theorem matchTime_cons_nondigit (c : Char) (h : c.isDigit = false) (l : List Char) :
    matchTime (c :: l) = none := by
  unfold matchTime matchDigits
  simp [List.takeWhile_cons, h]

theorem matchRelative_cons_nondigit (c : Char) (h : c.isDigit = false) (l : List Char) :
    matchRelative (c :: l) = none := by
  unfold matchRelative matchDigits
  simp [List.takeWhile_cons, h]

theorem matchNow_cons_ne (c : Char) (h : ¬ c = 'n') (l : List Char) :
    matchNow (c :: l) = none := by
  unfold matchNow
  rw [tl_now]
  simp [matchLit, h]

theorem matchName_head_pred (P : Char → Bool) (c : Char) (hc : P c = true)
    (names : List String)
    (h : names.all (fun n => match n.toList with
      | a :: _ => !(P a)
      | [] => false) = true) (l : List Char) :
    matchName names (c :: l) = none := by
  induction names with
  | nil => rfl
  | cons n rest ih =>
    rw [List.all_cons, Bool.and_eq_true] at h
    obtain ⟨h1, h2⟩ := h
    unfold matchName
    revert h1
    cases hn : n.toList with
    | nil =>
      intro h1
      simp at h1
    | cons a as =>
      intro h1
      simp only [Bool.not_eq_true'] at h1
      have hca : ¬ c = a := by
        intro he
        rw [he] at hc
        rw [hc] at h1
        simp at h1
      simp [matchLit, hca]
      exact ih h2

/-- A clock-time sub-phrase skeleton: the digit fields plus the sizes of
the whitespace runs around the colon separators. -/
inductive TimeP
  | t1 (h : List Char)
  | t2 (h : List Char) (g1 g2 : Nat) (m : List Char)
  | t3 (h : List Char) (g1 g2 : Nat) (m : List Char) (g3 g4 : Nat) (s : List Char)

/-- Surface text of a time sub-phrase. -/
def TimeP.render : TimeP → List Char
  | .t1 h => h
  | .t2 h g1 g2 m =>
    h ++ (List.replicate g1 ' ' ++ (':' :: (List.replicate g2 ' ' ++ m)))
  | .t3 h g1 g2 m g3 g4 s =>
    h ++ (List.replicate g1 ' ' ++ (':' :: (List.replicate g2 ' ' ++
      (m ++ (List.replicate g3 ' ' ++ (':' :: (List.replicate g4 ' ' ++ s)))))))

/-- Grammar pairs of a time sub-phrase; independent of the gaps. -/
def TimeP.pairs : TimeP → List RS
  | .t1 h => [(Rule.time, ""), (Rule.hms, h.asString)]
  | .t2 h _ _ m => [(Rule.time, ""), (Rule.hms, h.asString), (Rule.hms, m.asString)]
  | .t3 h _ _ m _ _ s =>
    [(Rule.time, ""), (Rule.hms, h.asString), (Rule.hms, m.asString), (Rule.hms, s.asString)]

/-- Well-formedness: all digit fields are nonempty digit runs. -/
def TimeP.valid : TimeP → Bool
  | .t1 h => digitsTok h
  | .t2 h _ _ m => digitsTok h && digitsTok m
  | .t3 h _ _ m _ _ s => digitsTok h && digitsTok m && digitsTok s

theorem headFails_digit_replicate (k : Nat) :
    headFails Char.isDigit (List.replicate k ' ') = true := by
  cases k with
  | zero => rfl
  | succ m => simp [List.replicate, headFails]

theorem matchColonHms_replicate_none (k : Nat) :
    matchColonHms (List.replicate k ' ') = none := by
  unfold matchColonHms
  rw [wsSkip_replicate]
  rfl

theorem matchColonHms_sp_colon (g1 g2 : Nat) {m : List Char} (hm : digitsTok m = true)
    {rest : List Char} (hr : headFails Char.isDigit rest = true) :
    matchColonHms (List.replicate g1 ' ' ++ (':' :: (List.replicate g2 ' ' ++ (m ++ rest)))) =
      some (m, rest) := by
  unfold matchColonHms
  rw [wsSkip_replicate_append, wsSkip_cons_of_ne (by decide)]
  simp only [matchLit]
  norm_num
  rw [wsSkip_replicate_append]
  obtain ⟨c, cs, rfl, hc⟩ := digitsTok_head hm
  rw [List.cons_append, wsSkip_cons_of_ne (isDigit_ne hc (by decide))]
  rw [← List.cons_append]
  exact matchDigits_token hm hr

theorem matchTime_render {t : TimeP} (hv : t.valid = true) (k : Nat) :
    matchTime (t.render ++ List.replicate k ' ') =
      some (t.pairs, List.replicate k ' ') := by
  cases t with
  | t1 h =>
    simp only [TimeP.valid] at hv
    unfold matchTime TimeP.render
    rw [matchDigits_token hv (headFails_digit_replicate k)]
    simp only []
    rw [matchColonHms_replicate_none]
    rfl
  | t2 h g1 g2 m =>
    simp only [TimeP.valid, Bool.and_eq_true] at hv
    unfold matchTime TimeP.render
    rw [List.append_assoc]
    rw [matchDigits_token hv.1 (by
      rw [List.append_assoc, List.cons_append]
      apply headFails_replicate_space (by decide)
      simp [headFails])]
    simp only []
    rw [show (List.replicate g1 ' ' ++ (':' :: (List.replicate g2 ' ' ++ m)) ++ List.replicate k ' ')
        = (List.replicate g1 ' ' ++ (':' :: (List.replicate g2 ' ' ++ (m ++ List.replicate k ' ')))) from by simp]
    rw [matchColonHms_sp_colon g1 g2 hv.2 (headFails_digit_replicate k)]
    simp only []
    rw [matchColonHms_replicate_none]
    rfl
  | t3 h g1 g2 m g3 g4 s =>
    simp only [TimeP.valid, Bool.and_eq_true] at hv
    unfold matchTime TimeP.render
    rw [List.append_assoc]
    rw [matchDigits_token hv.1.1 (by
      rw [List.append_assoc, List.cons_append]
      apply headFails_replicate_space (by decide)
      simp [headFails])]
    simp only []
    rw [show (List.replicate g1 ' ' ++ (':' :: (List.replicate g2 ' ' ++
          (m ++ (List.replicate g3 ' ' ++ (':' :: (List.replicate g4 ' ' ++ s)))))) ++ List.replicate k ' ')
        = (List.replicate g1 ' ' ++ (':' :: (List.replicate g2 ' ' ++
          (m ++ ((List.replicate g3 ' ' ++ (':' :: (List.replicate g4 ' ' ++ (s ++ List.replicate k ' ')))))))))
        from by simp]
    rw [matchColonHms_sp_colon g1 g2 hv.1.2 (by
      apply headFails_replicate_space (by decide)
      simp [headFails])]
    simp only []
    rw [matchColonHms_sp_colon g3 g4 hv.2 (headFails_digit_replicate k)]
    rfl

theorem TimeP.render_head {t : TimeP} (hv : t.valid = true) :
    ∃ c cs, t.render = c :: cs ∧ c.isDigit = true := by
  cases t with
  | t1 h =>
    simp only [TimeP.valid] at hv
    obtain ⟨c, cs, rfl, hc⟩ := digitsTok_head hv
    exact ⟨c, cs, rfl, hc⟩
  | t2 h g1 g2 m =>
    simp only [TimeP.valid, Bool.and_eq_true] at hv
    obtain ⟨c, cs, rfl, hc⟩ := digitsTok_head hv.1
    exact ⟨c, cs ++ (List.replicate g1 ' ' ++ (':' :: (List.replicate g2 ' ' ++ m))),
           by simp [TimeP.render], hc⟩
  | t3 h g1 g2 m g3 g4 s =>
    simp only [TimeP.valid, Bool.and_eq_true] at hv
    obtain ⟨c, cs, rfl, hc⟩ := digitsTok_head hv.1.1
    exact ⟨c, cs ++ (List.replicate g1 ' ' ++ (':' :: (List.replicate g2 ' ' ++
      (m ++ (List.replicate g3 ' ' ++ (':' :: (List.replicate g4 ' ' ++ s))))))),
      by simp [TimeP.render], hc⟩

theorem mem_of_contains {s : String} {l : List String} (h : l.contains s = true) :
    s ∈ l := by
  simpa using h

/-- An "at <time>" tail: whitespace runs before "at" and before the
time, plus the time sub-phrase. -/
structure AtTime where
  g1 : Nat
  g2 : Nat
  t : TimeP

def AtTime.render (a : AtTime) : List Char :=
  List.replicate a.g1 ' ' ++ ('a' :: 't' :: (List.replicate a.g2 ' ' ++ a.t.render))

def optRender : Option AtTime → List Char
  | none => []
  | some a => a.render

def optPairs : Option AtTime → List RS
  | none => []
  | some a => a.t.pairs

def optValid : Option AtTime → Bool
  | none => true
  | some a => a.t.valid

theorem matchOptAtTime_render (base : List RS) {ot : Option AtTime}
    (hv : optValid ot = true) (k : Nat) :
    matchOptAtTime base (optRender ot ++ List.replicate k ' ') =
      some (base ++ optPairs ot, List.replicate k ' ') := by
  cases ot with
  | none =>
    unfold matchOptAtTime optRender
    rw [List.nil_append, wsSkip_replicate, tl_at]
    simp [matchLit, optPairs]
  | some a =>
    simp only [optValid] at hv
    unfold matchOptAtTime optRender AtTime.render
    rw [List.append_assoc, wsSkip_replicate_append, List.cons_append,
        wsSkip_cons_of_ne (by decide), tl_at]
    simp only [matchLit]
    norm_num
    rw [wsSkip_replicate_append]
    obtain ⟨c, cs, hrender, hc⟩ := TimeP.render_head hv
    rw [hrender, List.cons_append, wsSkip_cons_of_ne (isDigit_ne hc (by decide)),
        ← List.cons_append, ← hrender, matchTime_render hv k]
    simp [optPairs]

theorem wsSkip_cons (c : Char) (l : List Char) :
    wsSkip (c :: l) = if c = ' ' then wsSkip l else c :: l := by
  simp only [wsSkip, List.dropWhile_cons]
  split
  · next h => simp at h; simp [h]
  · next h => simp at h; simp [h]

/-- A day-reference skeleton: modifier+weekday (with the gap between
them), bare weekday, or shortcut day. -/
inductive DayRef
  | mw (mo : String) (g : Nat) (w : String)
  | wd (w : String)
  | sc (s : String)

def DayRef.render : DayRef → List Char
  | .mw mo g w => mo.toList ++ (List.replicate g ' ' ++ w.toList)
  | .wd w => w.toList
  | .sc s => s.toList

def DayRef.pairs : DayRef → List RS
  | .mw mo _ w => [(Rule.mday, ""), (Rule.modifier, mo), (Rule.weekday, w)]
  | .wd w => [(Rule.mday, ""), (Rule.weekday, w)]
  | .sc s => [(Rule.mday, ""), (Rule.shortcut_day, s)]

def DayRef.valid : DayRef → Bool
  | .mw mo _ w => modifierNames.contains mo && weekdayNames.contains w
  | .wd w => weekdayNames.contains w
  | .sc s => shortcutDayNames.contains s

theorem matchMday_render {d : DayRef} (hd : d.valid = true) {ot : Option AtTime}
    (hot : optValid ot = true) (k : Nat) :
    matchMday (d.render ++ (optRender ot ++ List.replicate k ' ')) =
      some (d.pairs ++ optPairs ot, List.replicate k ' ') := by
  cases d with
  | mw mo g w =>
    simp only [DayRef.valid, Bool.and_eq_true] at hd
    have hmo := mem_of_contains hd.1
    have hw := mem_of_contains hd.2
    unfold matchMday DayRef.render DayRef.pairs
    fin_cases hmo <;> fin_cases hw <;>
      simp [modifierNames, weekdayNames, matchName, matchLit, tl_last, tl_next,
        tl_monday, tl_tuesday, tl_wednesday, tl_thursday, tl_friday, tl_saturday,
        tl_sunday, wsSkip_replicate_append, wsSkip_cons, matchOptAtTime_render, hot]
  | wd w =>
    simp only [DayRef.valid] at hd
    have hw := mem_of_contains hd
    unfold matchMday DayRef.render DayRef.pairs
    fin_cases hw <;>
      simp [modifierNames, weekdayNames, matchName, matchLit, tl_last, tl_next,
        tl_monday, tl_tuesday, tl_wednesday, tl_thursday, tl_friday, tl_saturday,
        tl_sunday, matchOptAtTime_render, hot]
  | sc s =>
    simp only [DayRef.valid] at hd
    have hs := mem_of_contains hd
    unfold matchMday DayRef.render DayRef.pairs
    fin_cases hs <;>
      simp [modifierNames, weekdayNames, shortcutDayNames, matchName, matchLit,
        tl_last, tl_next, tl_monday, tl_tuesday, tl_wednesday, tl_thursday, tl_friday,
        tl_saturday, tl_sunday, tl_today, tl_yesterday, matchOptAtTime_render, hot]

theorem matchNow_day {d : DayRef} (hd : d.valid = true) (r : List Char) :
    matchNow (d.render ++ r) = none := by
  cases d with
  | mw mo g w =>
    simp only [DayRef.valid, Bool.and_eq_true] at hd
    have hmo := mem_of_contains hd.1
    fin_cases hmo <;>
      simp [DayRef.render, matchNow, matchLit, tl_now, tl_last, tl_next]
  | wd w =>
    simp only [DayRef.valid] at hd
    have hw := mem_of_contains hd
    fin_cases hw <;>
      simp [DayRef.render, matchNow, matchLit, tl_now, tl_monday, tl_tuesday,
        tl_wednesday, tl_thursday, tl_friday, tl_saturday, tl_sunday]
  | sc s =>
    simp only [DayRef.valid] at hd
    have hs := mem_of_contains hd
    fin_cases hs <;>
      simp [DayRef.render, matchNow, matchLit, tl_now, tl_today, tl_yesterday]

theorem matchTime_day {d : DayRef} (hd : d.valid = true) (r : List Char) :
    matchTime (d.render ++ r) = none := by
  cases d with
  | mw mo g w =>
    simp only [DayRef.valid, Bool.and_eq_true] at hd
    have hmo := mem_of_contains hd.1
    fin_cases hmo <;>
      simp [DayRef.render, matchTime, matchDigits, List.takeWhile_cons, tl_last, tl_next]
  | wd w =>
    simp only [DayRef.valid] at hd
    have hw := mem_of_contains hd
    fin_cases hw <;>
      simp [DayRef.render, matchTime, matchDigits, List.takeWhile_cons, tl_monday,
        tl_tuesday, tl_wednesday, tl_thursday, tl_friday, tl_saturday, tl_sunday]
  | sc s =>
    simp only [DayRef.valid] at hd
    have hs := mem_of_contains hd
    fin_cases hs <;>
      simp [DayRef.render, matchTime, matchDigits, List.takeWhile_cons, tl_today,
        tl_yesterday]

theorem matchRelative_day {d : DayRef} (hd : d.valid = true) (r : List Char) :
    matchRelative (d.render ++ r) = none := by
  cases d with
  | mw mo g w =>
    simp only [DayRef.valid, Bool.and_eq_true] at hd
    have hmo := mem_of_contains hd.1
    fin_cases hmo <;>
      simp [DayRef.render, matchRelative, matchDigits, List.takeWhile_cons, tl_last,
        tl_next]
  | wd w =>
    simp only [DayRef.valid] at hd
    have hw := mem_of_contains hd
    fin_cases hw <;>
      simp [DayRef.render, matchRelative, matchDigits, List.takeWhile_cons, tl_monday,
        tl_tuesday, tl_wednesday, tl_thursday, tl_friday, tl_saturday, tl_sunday]
  | sc s =>
    simp only [DayRef.valid] at hd
    have hs := mem_of_contains hd
    fin_cases hs <;>
      simp [DayRef.render, matchRelative, matchDigits, List.takeWhile_cons, tl_today,
        tl_yesterday]

theorem matchMday_none {cs : List Char} (h1 : matchName modifierNames cs = none)
    (h2 : matchName weekdayNames cs = none)
    (h3 : matchName shortcutDayNames cs = none) : matchMday cs = none := by
  unfold matchMday
  rw [h1]
  simp only []
  rw [h2]
  simp only []
  rw [h3]

theorem matchDayAt_none {cs : List Char} (h : matchMday cs = none) :
    matchDayAt cs = none := by
  unfold matchDayAt
  rw [h]

/-- The sign of an ISO year literal. -/
inductive Sign
  | nosign
  | neg
  | pos

def Sign.render : Sign → List Char
  | .nosign => []
  | .neg => ['-']
  | .pos => ['+']

theorem matchSignedDigits_render (sgn : Sign) {y : List Char} (hy : digitsTok y = true)
    {rest : List Char} (hr : headFails Char.isDigit rest = true) :
    matchSignedDigits (sgn.render ++ (y ++ rest)) = some (sgn.render ++ y, rest) := by
  cases sgn with
  | nosign =>
    obtain ⟨c, cs, rfl, hc⟩ := digitsTok_head hy
    have h1 : ¬ c = '-' := isDigit_ne hc (by decide)
    have h2 : ¬ c = '+' := isDigit_ne hc (by decide)
    unfold matchSignedDigits
    simp only [Sign.render, List.nil_append, List.cons_append]
    split
    · next heq => rw [List.cons.injEq] at heq; exact absurd heq.1 h1
    · next heq => rw [List.cons.injEq] at heq; exact absurd heq.1 h2
    · rw [← List.cons_append, matchDigits_token hy hr]
  | neg =>
    unfold matchSignedDigits
    simp only [Sign.render, List.cons_append, List.nil_append]
    rw [matchDigits_token hy hr]
  | pos =>
    unfold matchSignedDigits
    simp only [Sign.render, List.cons_append, List.nil_append]
    rw [matchDigits_token hy hr]

theorem matchIso_render (sgn : Sign) {y : List Char} (hy : digitsTok y = true)
    (g1 g2 : Nat) {mo : List Char} (hmo : digitsTok mo = true) (g3 g4 : Nat)
    {dd : List Char} (hdd : digitsTok dd = true) (g5 g6 : Nat) {t : TimeP}
    (ht : t.valid = true) (k : Nat) :
    matchIso (sgn.render ++ (y ++ (List.replicate g1 ' ' ++ ('-' :: (List.replicate g2 ' ' ++
      (mo ++ (List.replicate g3 ' ' ++ ('-' :: (List.replicate g4 ' ' ++
      (dd ++ (List.replicate g5 ' ' ++ ('a' :: 't' :: (List.replicate g6 ' ' ++
      (t.render ++ List.replicate k ' ')))))))))))))) =
    some ([(Rule.iso, ""), (Rule.year, (sgn.render ++ y).asString),
           (Rule.month, mo.asString), (Rule.day, dd.asString)] ++ t.pairs,
          List.replicate k ' ') := by
  unfold matchIso
  rw [matchSignedDigits_render sgn hy (by
    apply headFails_replicate_space (by decide)
    simp [headFails])]
  simp only []
  rw [wsSkip_replicate_append, wsSkip_cons_of_ne (by decide)]
  simp only [matchLit]
  norm_num
  rw [wsSkip_replicate_append]
  obtain ⟨cm, csm, rfl, hcm⟩ := digitsTok_head hmo
  rw [List.cons_append, wsSkip_cons_of_ne (isDigit_ne hcm (by decide)), ← List.cons_append]
  rw [matchDigits_token hmo (by
    apply headFails_replicate_space (by decide)
    simp [headFails])]
  simp only []
  rw [wsSkip_replicate_append, wsSkip_cons_of_ne (by decide)]
  simp only [matchLit]
  norm_num
  rw [wsSkip_replicate_append]
  obtain ⟨cd, csd, rfl, hcd⟩ := digitsTok_head hdd
  rw [List.cons_append, wsSkip_cons_of_ne (isDigit_ne hcd (by decide)), ← List.cons_append]
  rw [matchDigits_token hdd (by
    apply headFails_replicate_space (by decide)
    simp [headFails])]
  simp only []
  rw [wsSkip_replicate_append, wsSkip_cons_of_ne (by decide)]
  simp only [matchLit]
  norm_num
  rw [wsSkip_replicate_append]
  obtain ⟨ct, cst, hrt, hct⟩ := TimeP.render_head ht
  rw [hrt, List.cons_append, wsSkip_cons_of_ne (isDigit_ne hct (by decide)),
      ← List.cons_append, ← hrt, matchTime_render ht k]

/-- A valid-phrase skeleton: the token content of one `time_clue`
phrase together with the sizes of every insignificant-whitespace run
the grammar allows between its tokens. -/
inductive Phrase
  | nowP
  | timeP (t : TimeP)
  | relP (n : List Char) (g1 : Nat) (q : String) (g2 : Nat)
  | dayP (d : DayRef) (ot : Option AtTime)
  | isoP (sgn : Sign) (y : List Char) (g1 g2 : Nat) (mo : List Char) (g3 g4 : Nat)
      (dd : List Char) (g5 g6 : Nat) (t : TimeP)

/-- Surface text of a phrase (without trailing whitespace). -/
def Phrase.render : Phrase → List Char
  | .nowP => ['n', 'o', 'w']
  | .timeP t => t.render
  | .relP n g1 q g2 =>
    n ++ (List.replicate g1 ' ' ++ (q.toList ++ (List.replicate g2 ' ' ++ ['a', 'g', 'o'])))
  | .dayP d ot => d.render ++ optRender ot
  | .isoP sgn y g1 g2 mo g3 g4 dd g5 g6 t =>
    sgn.render ++ (y ++ (List.replicate g1 ' ' ++ ('-' :: (List.replicate g2 ' ' ++
      (mo ++ (List.replicate g3 ' ' ++ ('-' :: (List.replicate g4 ' ' ++
      (dd ++ (List.replicate g5 ' ' ++ ('a' :: 't' :: (List.replicate g6 ' ' ++
      t.render))))))))))))

/-- The inner grammar pairs of a phrase: independent of every
whitespace-run size. -/
def Phrase.pairs : Phrase → List RS
  | .nowP => [(Rule.now, "now")]
  | .timeP t => t.pairs
  | .relP n _ q _ => [(Rule.relative, ""), (Rule.int, n.asString), (Rule.quantifier, q)]
  | .dayP d ot => (Rule.day_at, "") :: (d.pairs ++ optPairs ot)
  | .isoP sgn y _ _ mo _ _ dd _ _ t =>
    [(Rule.iso, ""), (Rule.year, (sgn.render ++ y).asString), (Rule.month, mo.asString),
     (Rule.day, dd.asString)] ++ t.pairs

/-- The full flattened sequence handed to the reducer. -/
def Phrase.flat (p : Phrase) : List RS :=
  (Rule.time_clue, "") :: p.pairs ++ [(Rule.EOI, "")]

/-- Well-formedness: digit fields are nonempty digit runs and names are
in their vocabularies. -/
def Phrase.valid : Phrase → Bool
  | .nowP => true
  | .timeP t => t.valid
  | .relP n _ q _ => digitsTok n && quantifierNames.contains q
  | .dayP d ot => d.valid && optValid ot
  | .isoP _ y _ _ mo _ _ dd _ _ t =>
    digitsTok y && digitsTok mo && digitsTok dd && t.valid

theorem tryAlt_none : tryAlt none = none := rfl

theorem tryAlt_nonempty {ps : List RS} {c : Char} {l r : List Char}
    (h : wsSkip r = c :: l) : tryAlt (some (ps, r)) = none := by
  unfold tryAlt
  simp only []
  rw [h]
  simp

theorem tryAlt_done {ps : List RS} {r : List Char} (h : wsSkip r = []) :
    tryAlt (some (ps, r)) =
      some ((Rule.time_clue, "") :: ps ++ [(Rule.EOI, "")]) := by
  unfold tryAlt
  simp only []
  rw [h]
  simp

theorem matchTimeClue_render {p : Phrase} (hv : p.valid = true) (k : Nat) :
    matchTimeClue (p.render ++ List.replicate k ' ') = some p.flat := by
  cases p with
  | nowP =>
    unfold matchTimeClue
    simp only [Phrase.render, Phrase.flat, Phrase.pairs]
    have hn : matchNow (['n', 'o', 'w'] ++ List.replicate k ' ') =
        some ([(Rule.now, "now")], List.replicate k ' ') := by
      unfold matchNow
      rw [tl_now, matchLit_self_append]
    rw [hn, tryAlt_done (wsSkip_replicate k)]
  | timeP t =>
    simp only [Phrase.valid] at hv
    unfold matchTimeClue
    simp only [Phrase.render, Phrase.flat, Phrase.pairs]
    obtain ⟨c, cs, hrt, hc⟩ := TimeP.render_head hv
    rw [hrt, List.cons_append, matchNow_cons_ne c (isDigit_ne hc (by decide)),
        tryAlt_none, ← List.cons_append, ← hrt]
    rw [matchTime_render hv k, tryAlt_done (wsSkip_replicate k)]
  | dayP d ot =>
    simp only [Phrase.valid, Bool.and_eq_true] at hv
    unfold matchTimeClue
    simp only [Phrase.render, Phrase.flat, Phrase.pairs]
    rw [List.append_assoc]
    rw [matchNow_day hv.1, tryAlt_none, matchTime_day hv.1, tryAlt_none,
        matchRelative_day hv.1, tryAlt_none]
    unfold matchDayAt
    rw [matchMday_render hv.1 hv.2 k]
    simp only []
    rw [tryAlt_done (wsSkip_replicate k)]
  | relP n g1 q g2 =>
    simp only [Phrase.valid, Bool.and_eq_true] at hv
    have hq := mem_of_contains hv.2
    have hn := hv.1
    unfold matchTimeClue
    simp only [Phrase.render, Phrase.flat, Phrase.pairs]
    obtain ⟨c, cs, rfl, hc⟩ := digitsTok_head hn
    fin_cases hq
    · simp only [tl_min, List.append_assoc, List.cons_append, List.nil_append]
      have hR : headFails Char.isDigit (List.replicate g1 ' ' ++ ('m' :: 'i' :: 'n' ::
          (List.replicate g2 ' ' ++ ('a' :: 'g' :: 'o' :: List.replicate k ' ')))) = true := by
        apply headFails_replicate_space (by decide)
        simp [headFails]
      have h2 : matchTime (c :: (cs ++ (List.replicate g1 ' ' ++ ('m' :: 'i' :: 'n' ::
          (List.replicate g2 ' ' ++ ('a' :: 'g' :: 'o' :: List.replicate k ' ')))))) =
          some ([(Rule.time, ""), (Rule.hms, (c :: cs).asString)],
            List.replicate g1 ' ' ++ ('m' :: 'i' :: 'n' ::
            (List.replicate g2 ' ' ++ ('a' :: 'g' :: 'o' :: List.replicate k ' ')))) := by
        unfold matchTime
        rw [← List.cons_append, matchDigits_token hn hR]
        simp only []
        rw [matchColonHms_ws_none 'm' (by decide) (by decide)]
      have h3 : matchRelative (c :: (cs ++ (List.replicate g1 ' ' ++ ('m' :: 'i' :: 'n' ::
          (List.replicate g2 ' ' ++ ('a' :: 'g' :: 'o' :: List.replicate k ' ')))))) =
          some ([(Rule.relative, ""), (Rule.int, (c :: cs).asString), (Rule.quantifier, "min")],
            List.replicate k ' ') := by
        unfold matchRelative
        rw [← List.cons_append, matchDigits_token hn hR]
        simp only []
        rw [wsSkip_replicate_append, wsSkip_cons_of_ne (by decide)]
        simp [quantifierNames, matchName, tl_min, tl_days, matchLit]
        rw [wsSkip_replicate_append, wsSkip_cons_of_ne (by decide)]
        simp [matchLit, tl_ago]
      rw [matchNow_cons_ne c (isDigit_ne hc (by decide)), tryAlt_none, h2,
          tryAlt_nonempty (by
            rw [wsSkip_replicate_append, wsSkip_cons_of_ne (by decide)]),
          h3, tryAlt_done (wsSkip_replicate k)]
      simp
    · simp only [tl_days, List.append_assoc, List.cons_append, List.nil_append]
      have hR : headFails Char.isDigit (List.replicate g1 ' ' ++ ('d' :: 'a' :: 'y' :: 's' ::
          (List.replicate g2 ' ' ++ ('a' :: 'g' :: 'o' :: List.replicate k ' ')))) = true := by
        apply headFails_replicate_space (by decide)
        simp [headFails]
      have h2 : matchTime (c :: (cs ++ (List.replicate g1 ' ' ++ ('d' :: 'a' :: 'y' :: 's' ::
          (List.replicate g2 ' ' ++ ('a' :: 'g' :: 'o' :: List.replicate k ' ')))))) =
          some ([(Rule.time, ""), (Rule.hms, (c :: cs).asString)],
            List.replicate g1 ' ' ++ ('d' :: 'a' :: 'y' :: 's' ::
            (List.replicate g2 ' ' ++ ('a' :: 'g' :: 'o' :: List.replicate k ' ')))) := by
        unfold matchTime
        rw [← List.cons_append, matchDigits_token hn hR]
        simp only []
        rw [matchColonHms_ws_none 'd' (by decide) (by decide)]
      have h3 : matchRelative (c :: (cs ++ (List.replicate g1 ' ' ++ ('d' :: 'a' :: 'y' :: 's' ::
          (List.replicate g2 ' ' ++ ('a' :: 'g' :: 'o' :: List.replicate k ' ')))))) =
          some ([(Rule.relative, ""), (Rule.int, (c :: cs).asString), (Rule.quantifier, "days")],
            List.replicate k ' ') := by
        unfold matchRelative
        rw [← List.cons_append, matchDigits_token hn hR]
        simp only []
        rw [wsSkip_replicate_append, wsSkip_cons_of_ne (by decide)]
        simp [quantifierNames, matchName, tl_min, tl_days, matchLit]
        rw [wsSkip_replicate_append, wsSkip_cons_of_ne (by decide)]
        simp [matchLit, tl_ago]
      rw [matchNow_cons_ne c (isDigit_ne hc (by decide)), tryAlt_none, h2,
          tryAlt_nonempty (by
            rw [wsSkip_replicate_append, wsSkip_cons_of_ne (by decide)]),
          h3, tryAlt_done (wsSkip_replicate k)]
      simp
  | isoP sgn y g1 g2 mo g3 g4 dd g5 g6 t =>
    simp only [Phrase.valid, Bool.and_eq_true] at hv
    obtain ⟨⟨⟨hy, hmo⟩, hdd⟩, ht⟩ := hv
    unfold matchTimeClue
    simp only [Phrase.render, Phrase.flat, Phrase.pairs]
    have h5 := matchIso_render sgn hy g1 g2 hmo g3 g4 hdd g5 g6 ht k
    cases sgn with
    | nosign =>
      obtain ⟨c, cs, rfl, hc⟩ := digitsTok_head hy
      simp only [Sign.render, List.nil_append, List.append_assoc, List.cons_append] at h5 ⊢
      set R := List.replicate g1 ' ' ++ ('-' :: (List.replicate g2 ' ' ++ (mo ++ (List.replicate g3 ' ' ++ ('-' :: (List.replicate g4 ' ' ++ (dd ++ (List.replicate g5 ' ' ++ ('a' :: 't' :: (List.replicate g6 ' ' ++ (t.render ++ List.replicate k ' '))))))))))) with hRdef
      have hR : headFails Char.isDigit R = true := by
        rw [hRdef]
        apply headFails_replicate_space (by decide)
        simp [headFails]
      have h2 : matchTime (c :: (cs ++ R)) =
          some ([(Rule.time, ""), (Rule.hms, (c :: cs).asString)], R) := by
        unfold matchTime
        rw [← List.cons_append, matchDigits_token hy hR]
        simp only []
        rw [hRdef, matchColonHms_ws_none '-' (by decide) (by decide)]
      have h3 : matchRelative (c :: (cs ++ R)) = none := by
        unfold matchRelative
        rw [← List.cons_append, matchDigits_token hy hR]
        simp only []
        rw [hRdef, wsSkip_replicate_append, wsSkip_cons_of_ne (by decide),
            matchName_head_pred (fun x => x == '-') '-' (by decide) quantifierNames (by decide)]
      have h4 : matchDayAt (c :: (cs ++ R)) = none := by
        apply matchDayAt_none
        exact matchMday_none
          (matchName_head_pred Char.isDigit c hc modifierNames (by decide) _)
          (matchName_head_pred Char.isDigit c hc weekdayNames (by decide) _)
          (matchName_head_pred Char.isDigit c hc shortcutDayNames (by decide) _)
      rw [matchNow_cons_ne c (isDigit_ne hc (by decide)), tryAlt_none, h2,
          tryAlt_nonempty (by
            rw [hRdef, wsSkip_replicate_append, wsSkip_cons_of_ne (by decide)]),
          h3, tryAlt_none, h4, tryAlt_none, h5, tryAlt_done (wsSkip_replicate k)]
      simp
    | neg =>
      simp only [Sign.render, List.singleton_append, List.nil_append, List.append_assoc, List.cons_append] at h5 ⊢
      have h4 : ∀ l : List Char, matchDayAt ('-' :: l) = none := fun l =>
        matchDayAt_none (matchMday_none
          (matchName_head_pred (fun x => x == '-') '-' (by decide) modifierNames (by decide) _)
          (matchName_head_pred (fun x => x == '-') '-' (by decide) weekdayNames (by decide) _)
          (matchName_head_pred (fun x => x == '-') '-' (by decide) shortcutDayNames (by decide) _))
      rw [matchNow_cons_ne '-' (by decide), tryAlt_none,
          matchTime_cons_nondigit '-' (by decide), tryAlt_none,
          matchRelative_cons_nondigit '-' (by decide), tryAlt_none,
          h4, tryAlt_none, h5, tryAlt_done (wsSkip_replicate k)]
      simp
    | pos =>
      simp only [Sign.render, List.singleton_append, List.nil_append, List.append_assoc, List.cons_append] at h5 ⊢
      have h4 : ∀ l : List Char, matchDayAt ('+' :: l) = none := fun l =>
        matchDayAt_none (matchMday_none
          (matchName_head_pred (fun x => x == '+') '+' (by decide) modifierNames (by decide) _)
          (matchName_head_pred (fun x => x == '+') '+' (by decide) weekdayNames (by decide) _)
          (matchName_head_pred (fun x => x == '+') '+' (by decide) shortcutDayNames (by decide) _))
      rw [matchNow_cons_ne '+' (by decide), tryAlt_none,
          matchTime_cons_nondigit '+' (by decide), tryAlt_none,
          matchRelative_cons_nondigit '+' (by decide), tryAlt_none,
          h4, tryAlt_none, h5, tryAlt_done (wsSkip_replicate k)]
      simp

/-- Zero out every whitespace-run size of a time sub-phrase. -/
def TimeP.strip : TimeP → TimeP
  | .t1 h => .t1 h
  | .t2 h _ _ m => .t2 h 0 0 m
  | .t3 h _ _ m _ _ s => .t3 h 0 0 m 0 0 s

/-- Zero out every whitespace-run size of a day reference. -/
def DayRef.strip : DayRef → DayRef
  | .mw mo _ w => .mw mo 0 w
  | .wd w => .wd w
  | .sc s => .sc s

/-- Zero out every whitespace-run size of an optional at-time tail. -/
def optStrip : Option AtTime → Option AtTime
  | none => none
  | some a => some ⟨0, 0, a.t.strip⟩

/-- Zero out every whitespace-run size of a phrase, keeping its tokens. -/
def Phrase.strip : Phrase → Phrase
  | .nowP => .nowP
  | .timeP t => .timeP t.strip
  | .relP n _ q _ => .relP n 0 q 0
  | .dayP d ot => .dayP d.strip (optStrip ot)
  | .isoP sgn y _ _ mo _ _ dd _ _ t => .isoP sgn y 0 0 mo 0 0 dd 0 0 t.strip

theorem timeP_pairs_strip (t : TimeP) : t.strip.pairs = t.pairs := by
  cases t <;> rfl

theorem timeP_valid_strip (t : TimeP) : t.strip.valid = t.valid := by
  cases t <;> rfl

theorem dayRef_pairs_strip (d : DayRef) : d.strip.pairs = d.pairs := by
  cases d <;> rfl

theorem dayRef_valid_strip (d : DayRef) : d.strip.valid = d.valid := by
  cases d <;> rfl

theorem optPairs_strip (ot : Option AtTime) : optPairs (optStrip ot) = optPairs ot := by
  cases ot with
  | none => rfl
  | some a => simp [optStrip, optPairs, timeP_pairs_strip]

theorem optValid_strip (ot : Option AtTime) : optValid (optStrip ot) = optValid ot := by
  cases ot with
  | none => rfl
  | some a => simp [optStrip, optValid, timeP_valid_strip]

theorem phrase_pairs_strip (p : Phrase) : p.strip.pairs = p.pairs := by
  cases p <;>
    simp [Phrase.strip, Phrase.pairs, timeP_pairs_strip, dayRef_pairs_strip, optPairs_strip]

theorem phrase_valid_strip (p : Phrase) : p.strip.valid = p.valid := by
  cases p <;>
    simp [Phrase.strip, Phrase.valid, timeP_valid_strip, dayRef_valid_strip, optValid_strip]

theorem phrase_flat_strip (p : Phrase) : p.strip.flat = p.flat := by
  simp [Phrase.flat, phrase_pairs_strip]

/-- The pipeline on a rendered phrase: grammar match succeeds and the
result is the reducer applied to the whitespace-independent pairs. -/
theorem parseChars_render {p : Phrase} (hv : p.valid = true) (k : Nat) :
    parseChars (p.render ++ List.replicate k ' ') = parse_time_clue p.flat := by
  unfold parseChars
  rw [matchTimeClue_render hv k]

/-- Changing every whitespace run of a valid phrase (here: comparing
against the run-free rendering) does not change the parse result. -/
theorem parseChars_ws_invariant {p : Phrase} (hv : p.valid = true) (k k' : Nat) :
    parseChars (p.render ++ List.replicate k ' ') =
      parseChars (p.strip.render ++ List.replicate k' ' ') := by
  rw [parseChars_render hv k,
      parseChars_render (by rw [phrase_valid_strip]; exact hv) k', phrase_flat_strip]

/-! ## Claims -/

/-- C1: the spec says a bare weekday name with no modifier and no time
phrase parses to `SameWeekDayAt(weekday, None)`.  The reducer has
with-time and without-time arms for `modifier weekday` and for
`shortcut_day`, but only a with-time arm for a bare `weekday`; hence
"friday" falls through to the internal-inconsistency error while
"friday at 19:43" and bare "today" succeed. -/
theorem bare_weekday_hits_unexpected_pattern :
    parse_time_clue_from_str "friday" = .error .UnexpectedNonMatchingPattern ∧
    parse_time_clue [(Rule.time_clue, "friday"), (Rule.day_at, "friday"),
      (Rule.mday, "friday"), (Rule.weekday, "friday"), (Rule.EOI, "")] =
      .error .UnexpectedNonMatchingPattern ∧
    parse_time_clue_from_str "friday at 19:43" = .ok (.SameWeekDayAt .Fri (some (19, 43, 0))) ∧
    parse_time_clue_from_str "today" = .ok (.ShortcutDayAt .Today none) :=
  ⟨rfl, rfl, rfl, rfl⟩

/-- C2 counterexample: two inputs whose isolated digit substrings differ
produce the very same error value, so the integer-literal-malformation
error cannot report the offending text; the Rust `ParseIntError` payload
holds only an error kind. -/
theorem parse_int_error_carries_no_text :
    parse_time_clue_from_str "999999999999999999999 min ago" =
      .error (.ParseInt .PosOverflow) ∧
    parse_time_clue_from_str "111111111111111111111 min ago" =
      .error (.ParseInt .PosOverflow) ∧
    parse_time_clue_from_str "999999999999999999999 min ago" =
      parse_time_clue_from_str "111111111111111111111 min ago" :=
  ⟨rfl, rfl, rfl⟩

/-- C2 amended: whenever a digit substring isolated by the grammar fails
numeric conversion (e.g. overflow), the parser returns the
integer-literal-malformation error carrying the conversion error kind —
but not the offending text. -/
theorem parse_int_error_reports_kind :
    (∀ (x q : String) (k : IntErrorKind), parseUsize x = .error k →
      parse_time_clue [(Rule.time_clue, ""), (Rule.relative, ""), (Rule.int, x),
        (Rule.quantifier, q), (Rule.EOI, "")] = .error (.ParseInt k)) ∧
    (∀ (x : String) (k : IntErrorKind), parseU32 x = .error k →
      parse_time_hms [(Rule.hms, x)] = .error (.ParseInt k)) := by
  constructor
  · intro x q k hk
    simp [parse_time_clue, hk]
  · intro x k hk
    simp [parse_time_hms, hk]

theorem parse_int_error_reports_kind_witness :
    parse_time_clue [(Rule.time_clue, ""), (Rule.relative, ""),
      (Rule.int, "999999999999999999999"), (Rule.quantifier, "min"), (Rule.EOI, "")] =
      .error (.ParseInt .PosOverflow) :=
  parse_int_error_reports_kind.1 "999999999999999999999" "min" .PosOverflow rfl

/-- C3 counterexample: the conversion rejects the name "minutes"; the
surface vocabulary is `min`, not `minutes`. -/
theorem quantifier_minutes_rejected :
    quantifier_from "minutes" = .error (.UnknownQuantifier "minutes") := rfl

/-- C3 amended: the quantifier conversion accepts exactly {"min",
"days"}, and fails on every other string with the unknown-quantifier
error carrying that string. -/
theorem quantifier_vocabulary_min_days :
    quantifier_from "min" = .ok .Min ∧ quantifier_from "days" = .ok .Days ∧
    (∀ s : String, s ≠ "min" → s ≠ "days" →
      quantifier_from s = .error (.UnknownQuantifier s)) := by
  refine ⟨rfl, rfl, fun s h1 h2 => ?_⟩
  simp [quantifier_from, h1, h2]

theorem quantifier_vocabulary_min_days_witness :
    quantifier_from "hours" = .error (.UnknownQuantifier "hours") :=
  quantifier_vocabulary_min_days.2.2 "hours" (by decide) (by decide)

/-- C4 counterexample: the weekday conversion is not case-insensitive —
"Friday" is rejected while "friday" is accepted, so the two casings do
not map to the same value. -/
theorem weekday_casing_distinguished :
    weekday_from "friday" = .ok .Fri ∧
    weekday_from "Friday" = .error (.UnknownWeekday "Friday") ∧
    weekday_from "Friday" ≠ weekday_from "friday" :=
  ⟨rfl, rfl, by decide⟩

/-- C4 amended: each conversion function matches its vocabulary
case-sensitively in all-lowercase form: every lowercase vocabulary name
maps to its enumerated value, and every string outside the exact
lowercase vocabulary — in particular any other casing — is rejected with
the unknown-name error carrying the text. -/
theorem conversions_lowercase_exact :
    (weekday_from "monday" = .ok .Mon ∧ weekday_from "tuesday" = .ok .Tue ∧
     weekday_from "wednesday" = .ok .Wed ∧ weekday_from "thursday" = .ok .Thu ∧
     weekday_from "friday" = .ok .Fri ∧ weekday_from "saturday" = .ok .Sat ∧
     weekday_from "sunday" = .ok .Sun) ∧
    (shortcut_day_from "today" = .ok .Today ∧
     shortcut_day_from "yesterday" = .ok .Yesterday) ∧
    (modifier_from "last" = .ok .Last ∧ modifier_from "next" = .ok .Next) ∧
    (quantifier_from "min" = .ok .Min ∧ quantifier_from "days" = .ok .Days) ∧
    (∀ s : String, s ∉ weekdayNames → weekday_from s = .error (.UnknownWeekday s)) ∧
    (∀ s : String, s ∉ shortcutDayNames →
      shortcut_day_from s = .error (.UnknownShortcutDay s)) ∧
    (∀ s : String, s ∉ modifierNames → modifier_from s = .error (.UnknownModifier s)) ∧
    (∀ s : String, s ∉ quantifierNames →
      quantifier_from s = .error (.UnknownQuantifier s)) :=
  ⟨⟨rfl, rfl, rfl, rfl, rfl, rfl, rfl⟩, ⟨rfl, rfl⟩, ⟨rfl, rfl⟩, ⟨rfl, rfl⟩,
   fun _ h => weekday_from_out h, fun _ h => shortcut_day_from_out h,
   fun _ h => modifier_from_out h, fun _ h => quantifier_from_out h⟩

theorem conversions_lowercase_exact_witness :
    weekday_from "FRIDAY" = .error (.UnknownWeekday "FRIDAY") :=
  conversions_lowercase_exact.2.2.2.2.1 "FRIDAY" (by decide)

/-- C5: whitespace insensitivity, for every valid phrase of the
grammar.  A `Phrase` is the token content of any `time_clue` phrase
(now / time / relative / day-reference with optional at-time / iso)
together with the sizes of every insignificant-whitespace run the
grammar allows between its tokens; `Phrase.flat` ignores those sizes.
For every valid phrase and every choice of run sizes, the parse of the
rendered text equals the reducer applied to the whitespace-independent
pair sequence — so inserting or removing whitespace runs (compare any
sizes against the run-free rendering `Phrase.strip`) never changes the
resulting descriptor.  The spec's four listed variants of "2 min ago"
are concrete instances, each parsing to `Relative(2, Min)`. -/
theorem whitespace_insensitivity :
    (∀ (p : Phrase) (k : Nat), p.valid = true →
      parseChars (p.render ++ List.replicate k ' ') = parse_time_clue p.flat) ∧
    (∀ (p : Phrase) (k k' : Nat), p.valid = true →
      parseChars (p.render ++ List.replicate k ' ') =
        parseChars (p.strip.render ++ List.replicate k' ' ')) ∧
    (∀ i j k : Nat, parseChars (relWs i j k) = .ok (.Relative 2 .Min)) ∧
    "2 min ago".toList = relWs 1 1 0 ∧
    "2min ago".toList = relWs 0 1 0 ∧
    "2minago".toList = relWs 0 0 0 ∧
    "2  min   ago".toList = relWs 2 3 0 ∧
    parse_time_clue_from_str "2 min ago" = .ok (.Relative 2 .Min) ∧
    parse_time_clue_from_str "2min ago" = .ok (.Relative 2 .Min) ∧
    parse_time_clue_from_str "2minago" = .ok (.Relative 2 .Min) ∧
    parse_time_clue_from_str "2  min   ago" = .ok (.Relative 2 .Min) :=
  ⟨fun _ k hv => parseChars_render hv k, fun _ k k' hv => parseChars_ws_invariant hv k k',
   parseChars_relWs, rfl, rfl, rfl, rfl, rfl, rfl, rfl, rfl⟩

theorem whitespace_insensitivity_witness :
    parseChars ((Phrase.dayP (.mw "last" 3 "friday")
        (some ⟨2, 0, .t2 ['9'] 1 1 ['3', '0']⟩)).render ++ List.replicate 2 ' ') =
      parse_time_clue (Phrase.dayP (.mw "last" 3 "friday")
        (some ⟨2, 0, .t2 ['9'] 1 1 ['3', '0']⟩)).flat :=
  whitespace_insensitivity.1 (Phrase.dayP (.mw "last" 3 "friday")
    (some ⟨2, 0, .t2 ['9'] 1 1 ['3', '0']⟩)) 2 (by decide)

/-- C6: clock-time field defaulting — "9" parses to `Time(9,0,0)`,
"9:30" to `Time(9,30,0)`, "9:30:56" to `Time(9,30,56)`; and in general
each omitted trailing field is filled with 0 by `parse_time_hms`. -/
theorem clock_time_field_defaulting :
    parse_time_clue_from_str "9" = .ok (.Time (9, 0, 0)) ∧
    parse_time_clue_from_str "9:30" = .ok (.Time (9, 30, 0)) ∧
    parse_time_clue_from_str "9:30:56" = .ok (.Time (9, 30, 56)) ∧
    (∀ (h : String) (n : Nat), parseU32 h = .ok n →
      parse_time_hms [(Rule.hms, h)] = .ok (.Time (n, 0, 0))) ∧
    (∀ (h m : String) (nh nm : Nat), parseU32 h = .ok nh → parseU32 m = .ok nm →
      parse_time_hms [(Rule.hms, h), (Rule.hms, m)] = .ok (.Time (nh, nm, 0))) := by
  refine ⟨rfl, rfl, rfl, ?_, ?_⟩
  · intro h n hn
    simp [parse_time_hms, hn]
  · intro h m nh nm hh hm2
    simp [parse_time_hms, hh, hm2]

theorem clock_time_field_defaulting_witness :
    parse_time_hms [(Rule.hms, "19"), (Rule.hms, "43")] = .ok (.Time (19, 43, 0)) :=
  clock_time_field_defaulting.2.2.2.2 "19" "43" 19 43 rfl rfl

/-- C7: ISO composition — every ISO-shaped sequence whose year, month,
day and time field substrings convert reduces to `ISO` carrying exactly
those six values as written (universally, at the `parse_iso` body and at
the whole reducer), with no range validation (the conversion hypotheses
admit month 13 and hour 99; the year conversion admits signs) and no
extra defaulting beyond the bare `Time` rule's; an `ISO` descriptor only
ever arises from a sequence whose sixth rule is a `time` sub-phrase,
never without one; concrete pipeline instances included. -/
theorem iso_composition :
    parse_time_clue_from_str "2024-13-01 at 99:30:56" = .ok (.ISO (2024, 13, 1) (99, 30, 56)) ∧
    parse_time_clue_from_str "-45-3-1 at 9" = .ok (.ISO (-45, 3, 1) (9, 0, 0)) ∧
    (∀ (l : List RS) (ymd : YMD) (hms : HMS), parse_time_clue l = .ok (.ISO ymd hms) →
      (l.map Prod.fst).take 6 =
        [Rule.time_clue, Rule.iso, Rule.year, Rule.month, Rule.day, Rule.time]) ∧
    (∀ (y m d : String) (l : List RS) (yy : Int) (mm dd : Nat) (hms : HMS),
      parseI32 y = .ok yy → parseU32 m = .ok mm → parseU32 d = .ok dd →
      parse_time_hms l = .ok (.Time hms) →
      parse_iso y m d l = .ok (.ISO (yy, mm, dd) hms)) ∧
    (∀ (a b t e y m d : String) (l : List RS) (yy : Int) (mm dd : Nat) (hms : HMS),
      parseI32 y = .ok yy → parseU32 m = .ok mm → parseU32 d = .ok dd →
      parse_time_hms l = .ok (.Time hms) →
      parse_time_clue ((Rule.time_clue, a) :: (Rule.iso, b) :: (Rule.year, y) ::
        (Rule.month, m) :: (Rule.day, d) :: (Rule.time, t) :: (l ++ [(Rule.EOI, e)])) =
        .ok (.ISO (yy, mm, dd) hms)) :=
  ⟨rfl, rfl, fun _ _ _ h => parse_time_clue_ok_iso h,
   fun y m d l yy mm dd hms hy hm hd ht => parse_iso_fields y m d l yy mm dd hms hy hm hd ht,
   fun a b t e y m d l yy mm dd hms hy hm hd ht =>
     parse_time_clue_iso_fields a b t e y m d l yy mm dd hms hy hm hd ht⟩

theorem iso_composition_witness :
    parse_time_clue [(Rule.time_clue, ""), (Rule.iso, ""), (Rule.year, "-45"),
      (Rule.month, "13"), (Rule.day, "1"), (Rule.time, ""), (Rule.hms, "99"),
      (Rule.hms, "30"), (Rule.hms, "56"), (Rule.EOI, "")] =
      .ok (.ISO (-45, 13, 1) (99, 30, 56)) :=
  iso_composition.2.2.2.2 "" "" "" "" "-45" "13" "1"
    [(Rule.hms, "99"), (Rule.hms, "30"), (Rule.hms, "56")] (-45) 13 1 (99, 30, 56)
    rfl rfl rfl rfl

/-- C8: "now" parses to `Now`, and only an exact match does — inputs
with extra tokens before or after fail with the grammar error, and in
general any input that parses to `Now` is the literal "now" followed
only by whitespace. -/
theorem now_exact_match :
    parse_time_clue_from_str "now" = .ok .Now ∧
    parse_time_clue_from_str "now now" = .error .PestError ∧
    parse_time_clue_from_str "nownow" = .error .PestError ∧
    parse_time_clue_from_str "9 now" = .error .PestError ∧
    parse_time_clue_from_str "now 9" = .error .PestError ∧
    (∀ cs : List Char, parseChars cs = .ok .Now →
      cs.take 3 = ['n', 'o', 'w'] ∧ wsSkip (cs.drop 3) = []) :=
  ⟨rfl, rfl, rfl, rfl, rfl, fun _ h => parseChars_ok_now h⟩

theorem now_exact_match_witness :
    "now".toList.take 3 = ['n', 'o', 'w'] ∧ wsSkip ("now".toList.drop 3) = [] :=
  now_exact_match.2.2.2.2.2 "now".toList rfl

/-- C9: every string outside a name category's fixed vocabulary is
rejected by that category's conversion with the category's unknown-name
error carrying the exact offending text — never a default value, never
a descriptor. -/
theorem unknown_name_errors :
    (∀ s : String, s ∉ weekdayNames → weekday_from s = .error (.UnknownWeekday s)) ∧
    (∀ s : String, s ∉ shortcutDayNames →
      shortcut_day_from s = .error (.UnknownShortcutDay s)) ∧
    (∀ s : String, s ∉ modifierNames → modifier_from s = .error (.UnknownModifier s)) ∧
    (∀ s : String, s ∉ quantifierNames →
      quantifier_from s = .error (.UnknownQuantifier s)) :=
  ⟨fun _ h => weekday_from_out h, fun _ h => shortcut_day_from_out h,
   fun _ h => modifier_from_out h, fun _ h => quantifier_from_out h⟩

theorem unknown_name_errors_witness :
    weekday_from "janvier" = .error (.UnknownWeekday "janvier") :=
  unknown_name_errors.1 "janvier" (by decide)

/-- C10: `parse_time_hms` only ever succeeds with the `Time` variant,
so the reducer's non-`Time` fallback arms are unreachable; consequently
a successful reduction of any sequence containing a matched `time`
sub-phrase never leaves an optional time slot unset (`None`). -/
theorem matched_time_subphrase_never_dropped :
    (∀ (l : List RS) (t : TimeClue), parse_time_hms l = .ok t → isTimeVariant t = true) ∧
    (∀ (l : List RS) (r : TimeClue), parse_time_clue l = .ok r →
      Rule.time ∈ l.map Prod.fst → hasUnsetTime r = false) :=
  ⟨fun _ _ h => parse_time_hms_ok_time h, fun _ _ h ht => parse_time_clue_time_set h ht⟩

theorem matched_time_subphrase_never_dropped_witness :
    hasUnsetTime (.ShortcutDayAt .Today (some (7, 0, 0))) = false :=
  matched_time_subphrase_never_dropped.2
    [(Rule.time_clue, ""), (Rule.day_at, ""), (Rule.mday, ""), (Rule.shortcut_day, "today"),
     (Rule.time, ""), (Rule.hms, "7"), (Rule.EOI, "")]
    (.ShortcutDayAt .Today (some (7, 0, 0))) rfl (by decide)

end Htp
